import Mathlib

/-!
Shallow embedding of the trajectories-front-end repository: the Airtable
data-access layer (`src/lib/airtable.ts`), the Lambda/Vercel proxy routes
(`lambda/airtable-proxy.js`), the markdown segmentation and anchor-id
resolution of the `MarkdownViewer` component, the `AnnotationForm`
completion / error-flag logic, and the GitHub URL normalization of
`Index.tsx`.  Strings are modelled as `List Char` internally; the JSON
values stored in the `Annotation Notes` field are modelled by a mutual
inductive `Jv` together with an executable serializer (`JSON.stringify`)
and parser (`JSON.parse`) over that fragment, with a proved round trip.
Numbers carry only the integer part of a JSON numeric literal (the
application only ever stores integer timestamps); fractional and exponent
parts are consumed and discarded by the parser, so acceptance/rejection
of numeric text still follows the JSON grammar.
-/

namespace TrajView

/-! ## Character utilities -/

/-- JSON insignificant whitespace, exactly the four characters `JSON.parse`
skips between tokens. -/
def jsonWs (c : Char) : Bool :=
  c = ' ' || c = '\t' || c = '\n' || c = '\r'

/-- JavaScript `\s` (approximated by its six ASCII members; the documents the
viewer handles are ASCII in the whitespace positions that matter). -/
def jsWs (c : Char) : Bool :=
  c = ' ' || c = '\t' || c = '\n' || c = '\r' || c = '\x0b' || c = '\x0c'

/-- ASCII decimal digit. -/
def isDig (c : Char) : Bool := '0' ≤ c && c ≤ '9'

/-- Drop leading JSON whitespace. -/
def wsDrop : List Char → List Char
  | [] => []
  | c :: t => if jsonWs c then wsDrop t else c :: t

/-- The digit character for `n < 10`. -/
def digCh (n : Nat) : Char := Char.ofNat (48 + n)

/-- Numeric value of a digit character. -/
def digVal (c : Char) : Nat := c.toNat - 48

/-- Lower-case hexadecimal digit for `n < 16` (as `JSON.stringify` emits in
`\u00xx` escapes). -/
def hexCh (n : Nat) : Char := if n < 10 then digCh n else Char.ofNat (87 + n)

/-- Value of a hexadecimal digit character, upper or lower case. -/
def hx (c : Char) : Option Nat :=
  if '0' ≤ c && c ≤ '9' then some (c.toNat - 48)
  else if 'a' ≤ c && c ≤ 'f' then some (c.toNat - 87)
  else if 'A' ≤ c && c ≤ 'F' then some (c.toNat - 55)
  else none

/-- Decimal digit string of a natural number, most significant digit first. -/
def natChars (n : Nat) : List Char :=
  if _h : n < 10 then [digCh n]
  else natChars (n / 10) ++ [digCh (n % 10)]
termination_by n
decreasing_by exact Nat.div_lt_self (by omega) (by omega)

/-- Decimal digit string of an integer (sign, then digits). -/
def intChars (n : Int) : List Char :=
  if n < 0 then '-' :: natChars n.natAbs else natChars n.toNat

/-! ## The JSON value fragment

`Jv` is the abstract value produced by `JSON.parse` / consumed by
`JSON.stringify`.  Objects are association lists in property order;
`JSON.parse` of text with a duplicated key yields the members verbatim in
source order (the application never writes such text, and every operation
below reads and writes the first binding of a key, so the first binding is
the observable one). -/

mutual
inductive Jv : Type where
  | jnull : Jv
  | jbool : Bool → Jv
  | jnum : Int → Jv
  | jstr : String → Jv
  | jarr : Ja → Jv
  | jobj : Jo → Jv
inductive Ja : Type where
  | anil : Ja
  | acons : Jv → Ja → Ja
inductive Jo : Type where
  | onil : Jo
  | ocons : String → Jv → Jo → Jo
end

/-- Look a key up in an object (first binding wins). -/
def jGet : Jo → String → Option Jv
  | .onil, _ => none
  | .ocons k v rest, key => if k = key then some v else jGet rest key

/-- JavaScript property assignment `obj[key] = v`: overwrite the existing
binding in place, else append a new binding at the end. -/
def jSet : Jo → String → Jv → Jo
  | .onil, key, v => .ocons key v .onil
  | .ocons k v' rest, key, v =>
    if k = key then .ocons k v rest else .ocons k v' (jSet rest key v)

/-- JavaScript truthiness of a JSON value. -/
def truthy : Jv → Bool
  | .jnull => false
  | .jbool b => b
  | .jnum n => n ≠ 0
  | .jstr s => s ≠ ""
  | .jarr _ => true
  | .jobj _ => true

/-! ## `JSON.stringify` over the fragment -/

/-- Escape one character of a JSON string literal the way `JSON.stringify`
does: two-character escapes for the named controls, quote and backslash,
`\u00xx` for the remaining control characters, the character itself
otherwise. -/
def escCh (c : Char) : List Char :=
  if c = '"' then ['\\', '"']
  else if c = '\\' then ['\\', '\\']
  else if c = '\n' then ['\\', 'n']
  else if c = '\r' then ['\\', 'r']
  else if c = '\t' then ['\\', 't']
  else if c = '\x08' then ['\\', 'b']
  else if c = '\x0c' then ['\\', 'f']
  else if c.toNat < 32 then
    ['\\', 'u', '0', '0', hexCh (c.toNat / 16), hexCh (c.toNat % 16)]
  else [c]

/-- Escape a whole string body. -/
def escStr : List Char → List Char
  | [] => []
  | c :: t => escCh c ++ escStr t

/-- A serialized object key: quoted escaped string plus the colon. -/
def jkey (k : String) : List Char := '"' :: (escStr k.toList ++ ['"', ':'])

mutual
/-- Serialize one JSON value (compactly, as `JSON.stringify` with no spacing
argument does). -/
def jdump : Jv → List Char
  | .jnull => ['n', 'u', 'l', 'l']
  | .jbool true => ['t', 'r', 'u', 'e']
  | .jbool false => ['f', 'a', 'l', 's', 'e']
  | .jnum n => intChars n
  | .jstr s => '"' :: (escStr s.toList ++ ['"'])
  | .jarr .anil => ['[', ']']
  | .jarr (.acons v vs) => '[' :: (jdump v ++ jdumpA vs ++ [']'])
  | .jobj .onil => ['{', '}']
  | .jobj (.ocons k v ms) => '{' :: (jkey k ++ jdump v ++ jdumpO ms ++ ['}'])
/-- Serialize the second and later elements of an array, each preceded by a
comma. -/
def jdumpA : Ja → List Char
  | .anil => []
  | .acons v vs => ',' :: (jdump v ++ jdumpA vs)
/-- Serialize the second and later members of an object, each preceded by a
comma. -/
def jdumpO : Jo → List Char
  | .onil => []
  | .ocons k v ms => ',' :: (jkey k ++ jdump v ++ jdumpO ms)
end

/-- `JSON.stringify` at the `String` level. -/
def jsonStringify (v : Jv) : String := String.mk (jdump v)

/-! ## `JSON.parse` over the fragment -/

/-- Decode a two-character escape. -/
def unesc (c : Char) : Option Char :=
  if c = '"' then some '"'
  else if c = '\\' then some '\\'
  else if c = '/' then some '/'
  else if c = 'n' then some '\n'
  else if c = 't' then some '\t'
  else if c = 'r' then some '\r'
  else if c = 'b' then some '\x08'
  else if c = 'f' then some '\x0c'
  else none

/-- Parse the body of a string literal, after the opening quote: stop at the
closing quote, decode escapes, reject unescaped control characters. -/
def strBody : List Char → Option (List Char × List Char)
  | [] => none
  | c :: t =>
    if c = '"' then some ([], t)
    else if c = '\\' then
      match t with
      | [] => none
      | e :: t1 =>
        if e = 'u' then
          match t1 with
          | a :: b :: c2 :: d :: t2 =>
            match hx a, hx b, hx c2, hx d with
            | some va, some vb, some vc, some vd =>
              (strBody t2).map fun p =>
                (Char.ofNat (((va * 16 + vb) * 16 + vc) * 16 + vd) :: p.1, p.2)
            | _, _, _, _ => none
          | _ => none
        else
          match unesc e with
          | some ch => (strBody t1).map fun p => (ch :: p.1, p.2)
          | none => none
    else if c.toNat < 32 then none
    else (strBody t).map fun p => (c :: p.1, p.2)

/-- Take the maximal run of decimal digits. -/
def digSpan : List Char → List Char × List Char
  | [] => ([], [])
  | c :: t => if isDig c then
      let p := digSpan t
      (c :: p.1, p.2)
    else ([], c :: t)

/-- Numeric value of a digit string. -/
def digsToNat (l : List Char) : Nat := l.foldl (fun a c => 10 * a + digVal c) 0

/-- Consume an optional exponent part (`e`/`E`, optional sign, one or more
digits); its value is discarded. -/
def expTail (l : List Char) : Option (List Char) :=
  match l with
  | c :: r =>
    if c = 'e' || c = 'E' then
      let r1 := match r with
        | s :: r' => if s = '+' || s = '-' then r' else s :: r'
        | [] => []
      let p := digSpan r1
      if p.1 = [] then none else some p.2
    else some (c :: r)
  | [] => some []

/-- Consume an optional fractional part then an optional exponent part. -/
def numTail (l : List Char) : Option (List Char) :=
  match l with
  | c :: r =>
    if c = '.' then
      let p := digSpan r
      if p.1 = [] then none else expTail p.2
    else expTail (c :: r)
  | [] => some []

/-- Whether `pre` is a prefix of `l`. -/
def startsWithL : List Char → List Char → Bool
  | [], _ => true
  | _ :: _, [] => false
  | p :: ps, c :: cs => p = c && startsWithL ps cs

/-- Parse the unsigned part of a JSON numeric literal: one or more digits
with no superfluous leading zero, then the optional fraction/exponent text
(whose value is discarded). -/
def numCore (l : List Char) : Option (Nat × List Char) :=
  let ds := digSpan l
  if ds.1 = [] then none
  else if 1 < ds.1.length && ds.1.headD '1' = '0' then none
  else (numTail ds.2).map fun r => (digsToNat ds.1, r)

/-- Parse a JSON numeric literal.  The produced `Int` is the signed integer
part; the fractional/exponent text is validated and discarded. -/
def parseNumber (l : List Char) : Option (Int × List Char) :=
  if startsWithL ['-'] l then (numCore (l.drop 1)).map fun p => (-(p.1 : Int), p.2)
  else (numCore l).map fun p => ((p.1 : Int), p.2)

mutual
/-- Parse one JSON value (leading whitespace allowed), fuelled. -/
def jparseV : Nat → List Char → Option (Jv × List Char)
  | 0, _ => none
  | fu + 1, l =>
    match wsDrop l with
    | [] => none
    | c :: t =>
      if c = '{' then
        match wsDrop t with
        | '}' :: r => some (.jobj .onil, r)
        | t1 => (jparseO fu t1).map fun p => (Jv.jobj p.1, p.2)
      else if c = '[' then
        match wsDrop t with
        | ']' :: r => some (.jarr .anil, r)
        | t1 => (jparseA fu t1).map fun p => (Jv.jarr p.1, p.2)
      else if c = '"' then
        (strBody t).map fun p => (Jv.jstr (String.mk p.1), p.2)
      else if c = 't' then
        match t with
        | 'r' :: 'u' :: 'e' :: r => some (.jbool true, r)
        | _ => none
      else if c = 'f' then
        match t with
        | 'a' :: 'l' :: 's' :: 'e' :: r => some (.jbool false, r)
        | _ => none
      else if c = 'n' then
        match t with
        | 'u' :: 'l' :: 'l' :: r => some (.jnull, r)
        | _ => none
      else if c = '-' || isDig c then
        (parseNumber (c :: t)).map fun p => (Jv.jnum p.1, p.2)
      else none
/-- Parse one or more comma-separated array elements then the closing
bracket (the empty array is handled in `jparseV`). -/
def jparseA : Nat → List Char → Option (Ja × List Char)
  | 0, _ => none
  | fu + 1, l =>
    match jparseV fu l with
    | none => none
    | some (v, r) =>
      match wsDrop r with
      | ',' :: r1 => (jparseA fu r1).map fun p => (Ja.acons v p.1, p.2)
      | ']' :: r1 => some (.acons v .anil, r1)
      | _ => none
/-- Parse one or more comma-separated object members then the closing brace
(the empty object is handled in `jparseV`). -/
def jparseO : Nat → List Char → Option (Jo × List Char)
  | 0, _ => none
  | fu + 1, l =>
    match wsDrop l with
    | '"' :: t =>
      match strBody t with
      | none => none
      | some (k, r1) =>
        match wsDrop r1 with
        | ':' :: r2 =>
          match jparseV fu r2 with
          | none => none
          | some (v, r3) =>
            match wsDrop r3 with
            | ',' :: r4 => (jparseO fu r4).map fun p => (Jo.ocons (String.mk k) v p.1, p.2)
            | '}' :: r4 => some (.ocons (String.mk k) v .onil, r4)
            | _ => none
        | _ => none
    | _ => none
end

/-- `JSON.parse` at the `String` level: parse one value, allow trailing
whitespace, reject anything else left over.  `none` models the `SyntaxError`
throw. -/
def jsonParse (s : String) : Option Jv :=
  match jparseV (s.length + 1) s.toList with
  | some (v, r) => if wsDrop r = [] then some v else none
  | none => none

/-! ## The Airtable data-access client (`src/lib/airtable.ts`)

The remote table is modelled as a list of records in table order; the proxy's
filter-by-formula lookup returns matches in that order, so the client's
"single record" lookup is the first record whose `Task Number` field equals
the query string. -/

/-- One Airtable record: opaque id plus its fields object. -/
structure AirRecord where
  id : String
  fields : Jo

/-- The `Task Number` field of a record, when it is a string. -/
def taskOf (r : AirRecord) : Option String :=
  match jGet r.fields "Task Number" with
  | some (.jstr s) => some s
  | _ => none

/-- Lookup by task number: the first record in table order whose
`Task Number` equals the query (`getRecordByTaskNumber` via the proxy). -/
def findByTask : List AirRecord → String → Option AirRecord
  | [], _ => none
  | r :: rs, t => if taskOf r = some t then some r else findByTask rs t

/-- Merge a fields object into a base fields object, key by key, as a
partial-update PATCH does. -/
def mergeFields (base : Jo) : Jo → Jo
  | .onil => base
  | .ocons k v rest => mergeFields (jSet base k v) rest

/-- `updateRecord`: PATCH the given fields onto the record with the given id. -/
def patchRecord (store : List AirRecord) (rid : String) (fs : Jo) : List AirRecord :=
  store.map fun r => if r.id = rid then ⟨r.id, mergeFields r.fields fs⟩ else r

/-- The name of the annotation-notes field. -/
def annotationNotesKey : String := "Annotation Notes"

/-- Current-notes recovery in `updateAnnotationNote`: start from the empty
object; a truthy string field is `JSON.parse`d (parse failure is caught and
falls back to the empty object); a truthy object-typed field is used as is; a
truthy number or boolean is neither, so the empty object remains. -/
def noteBase (cur : Option Jv) : Jv :=
  match cur with
  | none => .jobj .onil
  | some cv =>
    if truthy cv then
      match cv with
      | .jstr s =>
        match jsonParse s with
        | some j => j
        | none => .jobj .onil
      | .jobj o => .jobj o
      | .jarr a => .jarr a
      | _ => .jobj .onil
    else .jobj .onil

/-- The assignment `annotationNotes[key] = value`: for an object it (over)writes
the binding; a primitive silently discards the assignment, and on an array it
creates a non-index property that `JSON.stringify` drops, so at the serialized
level the value is unchanged in both non-object cases. -/
def setNoteProp (v : Jv) (key : String) (x : Jv) : Jv :=
  match v with
  | .jobj o => .jobj (jSet o key x)
  | other => other

/-- `updateAnnotationNote(taskNumber, key, value)`: read-modify-write of the
`Annotation Notes` field, failing only when no record matches the task
number. -/
def updateAnnotationNote (store : List AirRecord) (taskNumber key : String)
    (value : Jv) : Except String (List AirRecord) :=
  match findByTask store taskNumber with
  | none => .error ("No record found in Airtable with Task Number: " ++ taskNumber)
  | some r =>
    let notes := noteBase (jGet r.fields annotationNotesKey)
    let notes1 := setNoteProp notes key value
    .ok (patchRecord store r.id (.ocons annotationNotesKey (.jstr (jsonStringify notes1)) .onil))

/-- The raw `Annotation Notes` field of the record that a task number
resolves to. -/
def storedNotes (store : List AirRecord) (taskNumber : String) : Option Jv :=
  (findByTask store taskNumber).bind fun r => jGet r.fields annotationNotesKey

/-! ## The proxy route `GET /record-by-task-number` (`lambda/airtable-proxy.js`) -/

/-- A record as delivered by the upstream Airtable API (its `fields` member
may be absent). -/
structure UpRecord where
  id : String
  fields : Option Jo

/-- Outcome of the upstream Airtable fetch inside the handler: a non-ok HTTP
response (status and body text), or an ok response whose `records` member may
be absent. -/
inductive Upstream where
  | fail : Nat → String → Upstream
  | good : Option (List UpRecord) → Upstream

/-- An HTTP response of the proxy; the body is the JSON value that the
handler `JSON.stringify`s. -/
structure ProxyResponse where
  statusCode : Nat
  body : Jv

/-- `record.fields || \x7b\x7d` in the route handler. -/
def upFieldsObj (r : UpRecord) : Jo := r.fields.getD .onil

/-- The `record-by-task-number` route: 400 when the required parameter is
missing or empty (falsy), upstream failures passed through, otherwise 200
with the first matching record's `\x7bid, fields\x7d`, or 200 with body
`null` when no record matched. -/
def recordByTaskNumberRoute (taskNumber : Option String) (up : Upstream) : ProxyResponse :=
  if taskNumber.getD "" = "" then
    ⟨400, .jobj (.ocons "error" (.jstr "taskNumber parameter is required") .onil)⟩
  else
    match up with
    | .fail st txt =>
      ⟨st, .jobj (.ocons "error" (.jstr "Airtable API error")
        (.ocons "details" (.jstr txt) .onil))⟩
    | .good recs =>
      match recs with
      | some (r :: _) =>
        ⟨200, .jobj (.ocons "id" (.jstr r.id)
          (.ocons "fields" (.jobj (upFieldsObj r)) .onil))⟩
      | _ => ⟨200, .jnull⟩

/-! ## String helpers shared by the viewer model -/

/-- ASCII lower-casing, as `toLowerCase` acts on the ASCII range (the only
range exercised by the headings and roles at issue). -/
def lowerCh (c : Char) : Char :=
  if 'A' ≤ c && c ≤ 'Z' then Char.ofNat (c.toNat + 32) else c

/-- Lower-case a character list. -/
def lowerL (l : List Char) : List Char := l.map lowerCh

/-- JavaScript `trim()` (over the ASCII whitespace the documents use). -/
def trimL (l : List Char) : List Char :=
  ((l.dropWhile fun c => jsWs c).reverse.dropWhile fun c => jsWs c).reverse

/-- JavaScript `\w`: letters, digits, underscore. -/
def isWordCh (c : Char) : Bool :=
  ('a' ≤ c && c ≤ 'z') || ('A' ≤ c && c ≤ 'Z') || ('0' ≤ c && c ≤ '9') || c = '_'

/-- Replace every maximal whitespace run by one hyphen (`replace(/\s+/g, "-")`);
the flag records whether we are inside a run. -/
def collapseWsAux : Bool → List Char → List Char
  | _, [] => []
  | inRun, c :: t =>
    if jsWs c then (if inRun then [] else ['-']) ++ collapseWsAux true t
    else c :: collapseWsAux false t

/-- Collapse every maximal hyphen run to one hyphen (the global hyphen-run
replace of the slug pipeline). -/
def collapseHyAux : Bool → List Char → List Char
  | _, [] => []
  | inRun, c :: t =>
    if c = '-' then (if inRun then [] else ['-']) ++ collapseHyAux true t
    else c :: collapseHyAux false t

/-- The heading slug of `generateId` / the anchor-map key normalization:
lower-case, strip characters outside `\w`, whitespace and hyphen, turn
whitespace runs into hyphens, collapse hyphen runs, trim. -/
def generateIdL (l : List Char) : List Char :=
  trimL (collapseHyAux false (collapseWsAux false
    ((lowerL l).filter fun c => isWordCh c || jsWs c || c = '-')))

/-- JavaScript `includes`: `sub` occurs somewhere in the list. -/
def containsL (sub : List Char) : List Char → Bool
  | [] => startsWithL sub []
  | c :: t => startsWithL sub (c :: t) || containsL sub t

/-- Split on newline characters, as `content.split("\n")`. -/
def splitLines : List Char → List (List Char)
  | [] => [[]]
  | c :: t =>
    if c = '\n' then [] :: splitLines t
    else
      match splitLines t with
      | l :: ls => (c :: l) :: ls
      | [] => [[c]]

/-! ## Anchor-tag recognition (`extractAnchorIds` and the anchor stripper) -/

/-- Match the closing of an anchor tag: `/>` (only allowed by the stripper's
pattern) or `></a>`, case-insensitively.  Returns the rest of the input. -/
def anchorCloseAt (allowSelf : Bool) : List Char → Option (List Char)
  | '/' :: '>' :: r => if allowSelf then some r else none
  | '>' :: '<' :: '/' :: a :: '>' :: r => if lowerCh a = 'a' then some r else none
  | _ => none

/-- Match `id=["']([^"']+)["']\s*` followed by a closing, returning the
captured id and the rest. -/
def anchorIdPartAt (allowSelf : Bool) (l : List Char) : Option (List Char × List Char) :=
  match l with
  | i :: d :: e :: t =>
    if lowerCh i = 'i' && lowerCh d = 'd' && e = '=' then
      match t with
      | q :: t1 =>
        if q = '"' || q = '\'' then
          let idPart := t1.takeWhile fun c => c ≠ '"' && c ≠ '\''
          if idPart = [] then none
          else
            match t1.drop idPart.length with
            | q2 :: t2 =>
              if q2 = '"' || q2 = '\'' then
                (anchorCloseAt allowSelf (t2.dropWhile fun c => jsWs c)).map
                  fun r => (idPart, r)
              else none
            | [] => none
        else none
      | [] => none
    else none
  | _ => none

/-- Match a whole anchor tag `<a\s+id=["']([^"']+)["']\s*(close)` starting at
the head of the input (case-insensitive), returning the captured id and the
rest of the input. -/
def anchorTagAt (allowSelf : Bool) (l : List Char) : Option (List Char × List Char) :=
  match l with
  | lt :: a :: t =>
    if lt = '<' && lowerCh a = 'a' then
      match t with
      | w :: t1 =>
        if jsWs w then anchorIdPartAt allowSelf (t1.dropWhile fun c => jsWs c)
        else none
      | [] => none
    else none
  | _ => none

/-- First anchor id occurring anywhere in a line (the unanchored regex match
of `extractAnchorIds`, which does not allow the `/>` form). -/
def findAnchorIn : List Char → Option (List Char)
  | [] => none
  | c :: t =>
    match anchorTagAt false (c :: t) with
    | some p => some p.1
    | none => findAnchorIn t

/-- One replacement step of the stripper's pattern
`<a\s+id=["'][^"']+["']\s*(?:\/>|><\/a>)\s*\n?`: the trailing `\s*\n?`
consumes the maximal whitespace run after the tag. -/
def anchorStripAt (l : List Char) : Option (List Char) :=
  (anchorTagAt true l).map fun p => p.2.dropWhile fun c => jsWs c

/-- Global anchor-tag removal (fuelled; each step consumes at least one
character, so `length + 1` fuel always finishes the scan). -/
def stripAnchorsF : Nat → List Char → List Char
  | 0, l => l
  | _ + 1, [] => []
  | fu + 1, c :: t =>
    match anchorStripAt (c :: t) with
    | some rest => stripAnchorsF fu rest
    | none => c :: stripAnchorsF fu t

/-- The `processedContent` transformation: remove every anchor tag (and the
whitespace run following it). -/
def stripAnchors (l : List Char) : List Char := stripAnchorsF (l.length + 1) l

/-- Leading `#` run length. -/
def countHashes : List Char → Nat
  | '#' :: t => countHashes t + 1
  | _ => 0

/-- Whether a (trimmed) line matches `^#{1,6}\s+`. -/
def isHeadingLine (t : List Char) : Bool :=
  let n := countHashes t
  1 ≤ n && n ≤ 6 &&
    (match t.drop n with
     | c :: _ => jsWs c
     | [] => false)

/-- `line.replace(/^#{1,6}\s+/, "").trim()`: strip the hashes and the
whitespace run when the prefix matches, then trim. -/
def headingTextOfLine (t : List Char) : List Char :=
  if isHeadingLine t then trimL ((t.drop (countHashes t)).dropWhile fun c => jsWs c)
  else trimL t

/-- `findNextHeadingLine`: skip blank lines and whole comment blocks, return
the first other (trimmed) line.  The flag is true while inside a multi-line
comment block. -/
def nextContentLine : Bool → List (List Char) → Option (List Char)
  | _, [] => none
  | true, x :: xs =>
    if containsL ['-', '-', '>'] (trimL x) then nextContentLine false xs
    else nextContentLine true xs
  | false, x :: xs =>
    let t := trimL x
    if t = [] then nextContentLine false xs
    else if startsWithL ['<', '!', '-', '-'] t then
      (if containsL ['-', '-', '>'] t then nextContentLine false xs
       else nextContentLine true xs)
    else some t

/-- Set a key in the anchor map (`Map.set`: update in place or append). -/
def amSet : List (List Char × List Char) → List Char → List Char → List (List Char × List Char)
  | [], k, v => [(k, v)]
  | (k1, v1) :: rest, k, v =>
    if k1 = k then (k1, v) :: rest else (k1, v1) :: amSet rest k v

/-- Anchor-map lookup (`Map.get`). -/
def amGet : List (List Char × List Char) → List Char → Option (List Char)
  | [], _ => none
  | (k1, v1) :: rest, k => if k1 = k then some v1 else amGet rest k

/-- The line scan of `extractAnchorIds`: for each line holding an anchor tag,
look ahead (skipping blanks and comment blocks) for a heading line and map
the heading's normalized slug to the anchor id.  The source's same-line
`combinedMatch` branch is unreachable — its pattern contains the plain anchor
pattern, so `anchorMatch` cannot have failed — and is therefore omitted. -/
def extractAnchorAux : List (List Char) → List (List Char × List Char) → List (List Char × List Char)
  | [], m => m
  | x :: xs, m =>
    match findAnchorIn (trimL x) with
    | some aid =>
      let m1 := match nextContentLine false xs with
        | some nl =>
          if isHeadingLine nl then
            let key := generateIdL (headingTextOfLine nl)
            if key = [] then m else amSet m key aid
          else m
        | none => m
      extractAnchorAux xs m1
    | none => extractAnchorAux xs m

/-- `extractAnchorIds`: the anchor map of a document. -/
def extractAnchorIds (content : List Char) : List (List Char × List Char) :=
  extractAnchorAux (splitLines content) []

/-! ## Heading metadata at render time (`getHeadingMetadata`) -/

/-- Rendered heading metadata. -/
structure HeadingMeta where
  id : List Char
  isAnchorSection : Bool
  title : List Char

/-- JavaScript `a || b` for strings: keep `a` unless it is falsy (empty). -/
def jsOrL (a b : List Char) : List Char := if a = [] then b else a

/-- `getHeadingMetadata(children, defaultId)`: explicit anchor id when the
slug is in the anchor map, else the provided id, else the slug; the heading
is an anchor section exactly when the map lookup produced a (necessarily
non-empty) id. -/
def getHeadingMetadata (anchors : List (List Char × List Char)) (text : List Char)
    (defaultId : Option (List Char)) : HeadingMeta :=
  let textKey := generateIdL text
  let anchorId := (amGet anchors textKey).getD []
  { id := jsOrL anchorId (jsOrL (defaultId.getD []) textKey)
    isAnchorSection := !anchorId.isEmpty
    title := jsOrL text textKey }

/-! ## Marker comments and segmentation (`segments` in the viewer) -/

/-- Split the input at the first occurrence of `-->` (the lazy `[\s\S]*?-->`),
returning the text before it and the rest after it. -/
def arrowSplit : List Char → Option (List Char × List Char)
  | '-' :: '-' :: '>' :: r => some ([], r)
  | c :: t => (arrowSplit t).map fun p => (c :: p.1, p.2)
  | [] => none

/-- Match the marker pattern `<!--\s*MD[\s\S]*?-->` (case-insensitive)
starting at the head of the input; returns the matched text and the rest. -/
def markerAt (l : List Char) : Option (List Char × List Char) :=
  match l with
  | '<' :: '!' :: '-' :: '-' :: t =>
    let ws := t.takeWhile fun c => jsWs c
    match t.dropWhile (fun c => jsWs c) with
    | m :: d :: t2 =>
      if lowerCh m = 'm' && lowerCh d = 'd' then
        (arrowSplit t2).map fun p =>
          ('<' :: '!' :: '-' :: '-' :: (ws ++ m :: d :: (p.1 ++ ['-', '-', '>'])), p.2)
      else none
    | _ => none
  | _ => none

/-- Split at the first marker match: prefix before it, the matched text, and
the rest after it. -/
def findMarker : List Char → Option (List Char × List Char × List Char)
  | [] => none
  | c :: t =>
    match markerAt (c :: t) with
    | some p => some ([], p.1, p.2)
    | none => (findMarker t).map fun p => (c :: p.1, p.2.1, p.2.2)

/-- Match `^(#{1,6})\s+(.+)$` (multiline) at a line-start position: one to
six hashes, at least one whitespace character (which, being `\s`, may span
newlines), then the captured text up to the end of its line.  When the
whitespace run reaches the end of the input the engine backtracks, so the
match succeeds only if the run has at least two characters and its last
character is not a newline, which then forms the one-character capture. -/
def headingMatchAt (l : List Char) : Option (List Char × List Char) :=
  let n := countHashes l
  if 1 ≤ n && n ≤ 6 then
    let afterHash := l.drop n
    let ws := afterHash.takeWhile fun c => jsWs c
    if ws = [] then none
    else
      match afterHash.dropWhile (fun c => jsWs c) with
      | c :: t =>
        let txt := (c :: t).takeWhile fun ch => ch ≠ '\n'
        some (txt, (c :: t).drop txt.length)
      | [] =>
        if 2 ≤ ws.length && ws.getLast? ≠ some '\n' then
          some (ws.drop (ws.length - 1), [])
        else none
  else none

/-- The last heading text (trimmed) found by the global heading scan in a
markdown chunk; after a match the scan resumes at the match's end, as a
`g`-flag `exec` loop does.  Fuelled: every step consumes at least one
character. -/
def lastHeadingF : Nat → Option (List Char) → Bool → List Char → Option (List Char)
  | 0, acc, _, _ => acc
  | fu + 1, acc, atStart, l =>
    match l with
    | [] => acc
    | c :: t =>
      if atStart then
        match headingMatchAt (c :: t) with
        | some p => lastHeadingF fu (some (trimL p.1)) false p.2
        | none => lastHeadingF fu acc (c = '\n') t
      else lastHeadingF fu acc (c = '\n') t

/-- `updateLastHeading` over one chunk: the last heading matched in it, if
any. -/
def lastHeadingIn (chunk : List Char) : Option (List Char) :=
  lastHeadingF (chunk.length + 1) none true chunk

/-- Whether `\s*-->` matches here (used by the metadata group's closing
test). -/
def arrowAfterWs (l : List Char) : Bool :=
  startsWithL ['-', '-', '>'] (l.dropWhile fun c => jsWs c)

/-- The lazy braces group `(\x7b[\s\S]*?\x7d)` whose closing brace is
followed by `\s*-->`: the minimal prefix before such a closing brace. -/
def braceGroup : List Char → Option (List Char)
  | [] => none
  | c :: t =>
    if c = '\x7d' && arrowAfterWs t then some []
    else (braceGroup t).map fun inner => c :: inner

/-- Match the metadata pattern `<!--\s*MD\s*(\x7b[\s\S]*?\x7d)\s*-->` at the
head of the input, returning the captured group (braces included). -/
def metaAt (l : List Char) : Option (List Char) :=
  match l with
  | '<' :: '!' :: '-' :: '-' :: t =>
    match t.dropWhile (fun c => jsWs c) with
    | m :: d :: t2 =>
      if lowerCh m = 'm' && lowerCh d = 'd' then
        match t2.dropWhile (fun c => jsWs c) with
        | b :: t3 =>
          if b = '\x7b' then (braceGroup t3).map fun inner => '\x7b' :: (inner ++ ['\x7d'])
          else none
        | [] => none
      else none
    | _ => none
  | _ => none

/-- Leftmost match of the metadata pattern anywhere in the comment text. -/
def metaScan : List Char → Option (List Char)
  | [] => none
  | c :: t =>
    match metaAt (c :: t) with
    | some g => some g
    | none => metaScan t

/-- `parseAnnotationMetadata`: the matched group `JSON.parse`d; no match and
a parse failure (caught) both yield no metadata. -/
def parseMarkerMeta (comment : List Char) : Option Jv :=
  (metaScan comment).bind fun g => jsonParse (String.mk g)

/-- A segment of the split document: a markdown chunk, or an annotation
placeholder carrying its owning heading and marker metadata. -/
inductive Seg : Type where
  | md : List Char → Seg
  | ann : Option (List Char) → Option Jv → Seg

/-- The `exec` loop of `segments`: split on marker comments, pushing the
(non-empty) chunk before each marker and an annotation placeholder carrying
the most recent heading seen so far and the marker's parsed metadata;
the (non-empty) tail is pushed at the end.  Fuelled on marker count. -/
def segCore : Nat → Option (List Char) → List Char → List Seg
  | 0, _, _ => []
  | fu + 1, heading, l =>
    match findMarker l with
    | none => if l = [] then [] else [Seg.md l]
    | some (p, m, r) =>
      let h1 := if p = [] then heading else
        match lastHeadingIn p with
        | some h => some h
        | none => heading
      (if p = [] then [] else [Seg.md p]) ++
        Seg.ann h1 (parseMarkerMeta m) :: segCore fu h1 r

/-- `segments`: empty processed content renders as one empty markdown
segment, otherwise the marker split (whose result is never empty for
non-empty input, so the final fallback of the source is kept but inert). -/
def segmentsOf (content : List Char) : List Seg :=
  let pc := stripAnchors content
  if pc = [] then [Seg.md []]
  else
    let res := segCore (pc.length + 1) none pc
    if res.isEmpty then [Seg.md pc] else res

/-- `determineStepRole` for the heading fallback: lower-cased trimmed heading,
then the trimmed text before the first hyphen, empty results dropping to
`null`. -/
def headingRoleOf : Option (List Char) → Option (List Char)
  | none => none
  | some h =>
    let ht := lowerL (trimL h)
    if ht = [] then none
    else
      let r0 := trimL (ht.takeWhile fun c => c ≠ '-')
      if r0 = [] then none else some (lowerL r0)

/-- `determineStepRole`: the metadata `role` when it is a string with
non-blank trim (trimmed and lower-cased), else the heading fallback. -/
def determineStepRole : Seg → Option (List Char)
  | .md _ => none
  | .ann heading meta =>
    let mrole : Option Jv :=
      match meta with
      | some (.jobj o) => jGet o "role"
      | _ => none
    match mrole with
    | some (.jstr s) =>
      if trimL s.toList ≠ [] then some (lowerL (trimL s.toList))
      else headingRoleOf heading
    | _ => headingRoleOf heading

/-- A placeholder renders an annotation form exactly when its role is
`assistant` (`if (stepRole !== "assistant") return null`). -/
def rendersForm (s : Seg) : Bool :=
  decide (determineStepRole s = some ("assistant".toList))

/-- Concatenation of the markdown segments' contents, in order. -/
def mdConcat : List Seg → List Char
  | [] => []
  | .md c :: rest => c ++ mdConcat rest
  | .ann _ _ :: rest => mdConcat rest

/-- Number of annotation placeholders among the segments. -/
def annCount : List Seg → Nat
  | [] => 0
  | .md _ :: rest => annCount rest
  | .ann _ _ :: rest => annCount rest + 1

/-- Modelled from the spec: the document "with every marker-comment
occurrence deleted" — a single left-to-right pass deleting each
non-overlapping marker match, i.e. `replace` with the marker pattern and the
empty string.  This is the specification-side right-hand value that claim
C10 compares the segmentation against; it is not a function of the source. -/
def stripMarkersF : Nat → List Char → List Char
  | 0, _ => []
  | fu + 1, l =>
    match findMarker l with
    | none => l
    | some (p, _, r) => p ++ stripMarkersF fu r

/-- Modelled from the spec: `stripMarkersF` with always-sufficient fuel. -/
def stripMarkers (l : List Char) : List Char := stripMarkersF (l.length + 1) l

/-! ## The annotation form (`AnnotationForm.tsx`) -/

/-- The error-flag record. -/
structure ErrorFlags where
  hallucination : Bool
  repetitionLoop : Bool
  misdiagnosis : Bool
  toolMisuse : Bool
  ignoredFeedback : Bool
  prematureConclusion : Bool
  scopeCreep : Bool
  na : Bool
  other : Bool
deriving DecidableEq

/-- `createInitialErrorFlags`: everything false. -/
def initialErrorFlags : ErrorFlags :=
  ⟨false, false, false, false, false, false, false, false, false⟩

/-- The keys of the error-flag record. -/
inductive ErrorFlagKey : Type where
  | hallucination | repetitionLoop | misdiagnosis | toolMisuse
  | ignoredFeedback | prematureConclusion | scopeCreep | na | other
deriving DecidableEq

/-- Read one flag. -/
def getFlag (f : ErrorFlags) : ErrorFlagKey → Bool
  | .hallucination => f.hallucination
  | .repetitionLoop => f.repetitionLoop
  | .misdiagnosis => f.misdiagnosis
  | .toolMisuse => f.toolMisuse
  | .ignoredFeedback => f.ignoredFeedback
  | .prematureConclusion => f.prematureConclusion
  | .scopeCreep => f.scopeCreep
  | .na => f.na
  | .other => f.other

/-- Write one flag. -/
def setFlag (f : ErrorFlags) : ErrorFlagKey → Bool → ErrorFlags
  | .hallucination, b => { f with hallucination := b }
  | .repetitionLoop, b => { f with repetitionLoop := b }
  | .misdiagnosis, b => { f with misdiagnosis := b }
  | .toolMisuse, b => { f with toolMisuse := b }
  | .ignoredFeedback, b => { f with ignoredFeedback := b }
  | .prematureConclusion, b => { f with prematureConclusion := b }
  | .scopeCreep, b => { f with scopeCreep := b }
  | .na, b => { f with na := b }
  | .other, b => { f with other := b }

/-- `toggleErrorFlag` restricted to its effect on the flag record: flip the
flag; turning `na` on resets everything else, turning any other flag on
clears `na`. -/
def toggleErrorFlag (f : ErrorFlags) (k : ErrorFlagKey) : ErrorFlags :=
  let u1 := setFlag f k (!getFlag f k)
  if k = .na && getFlag u1 .na then { initialErrorFlags with na := true }
  else if k ≠ .na && getFlag u1 k then { u1 with na := false }
  else u1

/-- The mutual-exclusion invariant of the error flags, as a decidable check:
whenever `na` is set, every other flag is clear. -/
def naExclusiveB (f : ErrorFlags) : Bool :=
  !f.na || (!f.hallucination && !f.repetitionLoop && !f.misdiagnosis &&
    !f.toolMisuse && !f.ignoredFeedback && !f.prematureConclusion &&
    !f.scopeCreep && !f.other)

/-- The local state of one annotation form that the completion effect
reads. -/
structure FormState where
  actionCategory : String
  otherActionCategory : String
  actionCorrectness : String
  reasoningQuality : String
  sandboxResponse : String
  errorFlags : ErrorFlags
  otherErrorExplanation : String

/-- `Object.values(errorFlags).some(Boolean)`. -/
def anyFlagSet (f : ErrorFlags) : Bool :=
  f.hallucination || f.repetitionLoop || f.misdiagnosis || f.toolMisuse ||
    f.ignoredFeedback || f.prematureConclusion || f.scopeCreep || f.na || f.other

/-- Sub-question one: category chosen, with a non-blank custom label when the
category is `other`. -/
def hasActionCategory (s : FormState) : Bool :=
  s.actionCategory ≠ "" &&
    (s.actionCategory ≠ "other" || (trimL s.otherActionCategory.toList).length > 0)

/-- Sub-question five's validity side condition: a non-blank explanation is
required whenever the `other` flag is set. -/
def hasValidOtherExplanation (s : FormState) : Bool :=
  !s.errorFlags.other || (trimL s.otherErrorExplanation.toList).length > 0

/-- The five answered-or-not booleans of the completion effect, in order. -/
def subAnswers (s : FormState) : List Bool :=
  [hasActionCategory s,
   s.actionCorrectness ≠ "",
   s.reasoningQuality ≠ "",
   s.sandboxResponse ≠ "",
   anyFlagSet s.errorFlags && hasValidOtherExplanation s]

/-- `answeredQuestions`: how many of the five booleans hold. -/
def answeredQuestions (s : FormState) : Nat :=
  ((subAnswers s).filter id).length

/-- `totalQuestions`. -/
def totalQuestions : Nat := 5

/-- `isComplete`: all five sub-questions answered. -/
def isComplete (s : FormState) : Bool := answeredQuestions s = totalQuestions

/-! ## GitHub URL normalization (`convertToRawUrl` in `Index.tsx`) -/

/-- Hostname and pathname of a parsed URL. -/
structure UrlParts where
  hostname : String
  pathname : String

/-- Split at the first `://`. -/
def schemeSplit : List Char → Option (List Char × List Char)
  | ':' :: '/' :: '/' :: r => some ([], r)
  | c :: t => (schemeSplit t).map fun p => (c :: p.1, p.2)
  | [] => none

/-- A plausible scheme: non-empty, leading letter, then letters, digits,
`+`, `-`, `.`. -/
def validScheme : List Char → Bool
  | [] => false
  | c :: t =>
    (('a' ≤ c && c ≤ 'z') || ('A' ≤ c && c ≤ 'Z')) &&
      t.all fun d =>
        ('a' ≤ d && d ≤ 'z') || ('A' ≤ d && d ≤ 'Z') || ('0' ≤ d && d ≤ '9') ||
          d = '+' || d = '-' || d = '.'

/-- The part after the last `@` (drops any userinfo). -/
def afterLastAt (l : List Char) : List Char :=
  (l.reverse.takeWhile fun c => c ≠ '@').reverse

/-- A small model of the WHATWG `new URL(...)` for the `scheme://host/path`
shapes the viewer receives: the hostname is the authority after userinfo and
before any port, lower-cased; the pathname is the raw path (no dot-segment
or percent normalization, which the inputs at issue do not use).  `none`
models the constructor throwing. -/
def parseURL (s : String) : Option UrlParts :=
  match schemeSplit s.toList with
  | none => none
  | some (sch, rest) =>
    if validScheme sch then
      let auth := rest.takeWhile fun c => c ≠ '/' && c ≠ '?' && c ≠ '#'
      let rest2 := rest.drop auth.length
      let host := lowerL ((afterLastAt auth).takeWhile fun c => c ≠ ':')
      if host = [] then none
      else
        let path := match rest2 with
          | '/' :: _ => rest2.takeWhile fun c => c ≠ '?' && c ≠ '#'
          | _ => ['/']
        some ⟨String.mk host, String.mk path⟩
    else none

/-- JavaScript `includes` on strings. -/
def strContains (hay sub : String) : Bool := containsL sub.toList hay.toList

/-- Split before the first occurrence of a (non-empty) separator: the part
before it and the part after it. -/
def findSub (sep : List Char) : List Char → Option (List Char × List Char)
  | [] => none
  | c :: t =>
    if startsWithL sep (c :: t) then some ([], (c :: t).drop sep.length)
    else (findSub sep t).map fun p => (c :: p.1, p.2)

/-- Fuelled worker for `String.split` on a non-empty separator. -/
def subSplitF (sep : List Char) : Nat → List Char → List (List Char)
  | 0, l => [l]
  | fu + 1, l =>
    match findSub sep l with
    | none => [l]
    | some (pre, rest) => pre :: subSplitF sep fu rest

/-- JavaScript `String.split` on a non-empty string separator. -/
def jsSplit (s sep : String) : List String :=
  (subSplitF sep.toList (s.length + 1) s.toList).map String.mk

/-- The match `^\/([^\/]+)\/([^\/]+)` on a pathname: the first two non-empty
path components. -/
def ownerRepoOf (path : List Char) : Option (List Char × List Char) :=
  match path with
  | '/' :: r =>
    let o := r.takeWhile fun c => c ≠ '/'
    if o = [] then none
    else
      match r.drop o.length with
      | '/' :: r2 =>
        let rep := r2.takeWhile fun c => c ≠ '/'
        if rep = [] then none else some (o, rep)
      | _ => none
  | _ => none

/-- `repo.replace(/\.git$/, "")`. -/
def stripGitSuffix (l : List Char) : List Char :=
  if ['.', 'g', 'i', 't'].isSuffixOf l then l.take (l.length - 4) else l

/-- Whether a list may safely follow a serialized numeric literal without
extending it: empty, or a head that is not a digit, decimal point, or
exponent letter. -/
def numOk : List Char → Bool
  | [] => true
  | c :: _ => !isDig c && c ≠ '.' && c ≠ 'e' && c ≠ 'E'

/-- `convertToRawUrl`: reject non-parsing URLs and hostnames not containing
`github.com`; rewrite blob URLs whose pathname splits on `/blob/` into
exactly two parts; otherwise map `/owner/repo` paths (with a trailing `.git`
stripped) to the default-branch README; anything else is an error.  The
outer catch replaces messages not containing "Invalid" (the non-GitHub-host
throw) with "Invalid URL format". -/
def convertToRawUrl (githubUrl : String) : Except String String :=
  match parseURL githubUrl with
  | none => .error "Invalid URL format"
  | some u =>
    if !strContains u.hostname "github.com" then .error "Invalid URL format"
    else if strContains u.pathname "/blob/" then
      match jsSplit u.pathname "/blob/" with
      | [repoPath, filePath] =>
        .ok ("https://raw.githubusercontent.com" ++ repoPath ++ "/" ++ filePath)
      | _ => .error "Invalid GitHub blob URL format"
    else
      match ownerRepoOf u.pathname.toList with
      | some (o, rep) =>
        .ok ("https://raw.githubusercontent.com/" ++ String.mk o ++ "/" ++
          String.mk (stripGitSuffix rep) ++ "/main/README.md")
      | none => .error "Invalid GitHub URL format"

/-! ## Round trip of the JSON codec: digit-level lemmas -/

theorem charOfNat_toNat {n : Nat} (h : n < 55296) : (Char.ofNat n).toNat = n := by
  unfold Char.ofNat
  split
  · rfl
  · exact absurd (Or.inl h) (by assumption)

theorem digCh_toNat {n : Nat} (h : n < 10) : (digCh n).toNat = 48 + n := by
  have : 48 + n < 55296 := by omega
  simpa [digCh] using charOfNat_toNat this

theorem digVal_digCh {n : Nat} (h : n < 10) : digVal (digCh n) = n := by
  interval_cases n <;> decide

theorem isDig_digCh {n : Nat} (h : n < 10) : isDig (digCh n) = true := by
  interval_cases n <;> decide

theorem digCh_ne_zeroCh {n : Nat} (h1 : 1 ≤ n) (h2 : n < 10) : digCh n ≠ '0' := by
  interval_cases n <;> decide

theorem natChars_ne_nil (n : Nat) : natChars n ≠ [] := by
  rw [natChars]
  split
  · simp
  · simp

theorem natChars_digits (n : Nat) : ∀ c ∈ natChars n, isDig c = true := by
  induction n using Nat.strong_induction_on with
  | _ n ih =>
    rw [natChars]
    split
    · intro c hc
      rw [List.mem_singleton] at hc
      subst hc
      exact isDig_digCh (by omega)
    · intro c hc
      rcases List.mem_append.mp hc with h1 | h2
      · exact ih (n / 10) (Nat.div_lt_self (by omega) (by omega)) c h1
      · rw [List.mem_singleton] at h2
        subst h2
        exact isDig_digCh (Nat.mod_lt _ (by omega))

theorem natChars_headD (n : Nat) (h : 1 ≤ n) : (natChars n).headD '1' ≠ '0' := by
  induction n using Nat.strong_induction_on with
  | _ n ih =>
    rw [natChars]
    split
    · exact digCh_ne_zeroCh h (by omega)
    · rename_i hn
      have hne := natChars_ne_nil (n / 10)
      obtain ⟨d, t, hd⟩ := List.exists_cons_of_ne_nil hne
      have hdiv : 1 ≤ n / 10 := Nat.one_le_div_iff (by omega) |>.mpr (by omega)
      have := ih (n / 10) (Nat.div_lt_self (by omega) (by omega)) hdiv
      rw [hd] at this ⊢
      simpa using this

theorem digsToNat_append_one (l : List Char) (c : Char) :
    digsToNat (l ++ [c]) = 10 * digsToNat l + digVal c := by
  simp [digsToNat, List.foldl_append]

theorem digsToNat_natChars (n : Nat) : digsToNat (natChars n) = n := by
  induction n using Nat.strong_induction_on with
  | _ n ih =>
    rw [natChars]
    split
    · rename_i h
      simp [digsToNat, digVal_digCh h]
    · rename_i h
      rw [digsToNat_append_one, ih (n / 10) (Nat.div_lt_self (by omega) (by omega)),
        digVal_digCh (Nat.mod_lt _ (by omega))]
      omega

theorem digSpan_stop {l : List Char} (h : numOk l = true) : digSpan l = ([], l) := by
  cases l with
  | nil => rfl
  | cons c t =>
    simp only [numOk, Bool.and_eq_true, Bool.not_eq_true'] at h
    simp [digSpan, h.1.1.1]

theorem digSpan_digits (ds : List Char) (hds : ∀ c ∈ ds, isDig c = true)
    {rest : List Char} (hr : numOk rest = true) :
    digSpan (ds ++ rest) = (ds, rest) := by
  induction ds with
  | nil => simpa using digSpan_stop hr
  | cons c t ih =>
    have hc := hds c (List.mem_cons_self ..)
    have ht : ∀ x ∈ t, isDig x = true := fun x hx => hds x (List.mem_cons_of_mem _ hx)
    simp [digSpan, hc, ih ht]

theorem isDig_char_facts {c : Char} (h : isDig c = true) :
    c ≠ '{' ∧ c ≠ '[' ∧ c ≠ '"' ∧ c ≠ 't' ∧ c ≠ 'f' ∧ c ≠ 'n' ∧ c ≠ '-' ∧
      jsonWs c = false := by
  refine ⟨?_, ?_, ?_, ?_, ?_, ?_, ?_, ?_⟩
  case refine_8 =>
    simp only [jsonWs, Bool.or_eq_false_iff, decide_eq_false_iff_not]
    refine ⟨⟨⟨?_, ?_⟩, ?_⟩, ?_⟩ <;>
      · intro he
        rw [he] at h
        exact absurd h (by decide)
  all_goals
    intro he
    rw [he] at h
    exact absurd h (by decide)

theorem expTail_stop {l : List Char} (h : numOk l = true) : expTail l = some l := by
  cases l with
  | nil => rfl
  | cons c t =>
    simp only [numOk, Bool.and_eq_true, decide_eq_true_eq, Bool.not_eq_true'] at h
    simp [expTail, h.1.2, h.2]

theorem numTail_stop {l : List Char} (h : numOk l = true) : numTail l = some l := by
  cases l with
  | nil => rfl
  | cons c t =>
    have h1 := h
    simp only [numOk, Bool.and_eq_true, decide_eq_true_eq, Bool.not_eq_true'] at h1
    simp [numTail, h1.1.1.2, expTail_stop h]

theorem numCore_natChars (m : Nat) {rest : List Char} (h : numOk rest = true) :
    numCore (natChars m ++ rest) = some (m, rest) := by
  have hspan := digSpan_digits (natChars m) (natChars_digits m) h
  have hne := natChars_ne_nil m
  have hzero : (decide (1 < (natChars m).length) && decide ((natChars m).headD '1' = '0'))
      = false := by
    by_cases hm : m = 0
    · subst hm
      simp [natChars]
    · have hh := natChars_headD m (by omega)
      have hh1 : (natChars m).head?.getD '1' ≠ '0' := by simpa using hh
      simp [hh1]
  simp only [numCore, hspan]
  rw [if_neg hne, if_neg (by simp_all), numTail_stop h, digsToNat_natChars]
  rfl

theorem parseNumber_intChars (n : Int) {rest : List Char} (h : numOk rest = true) :
    parseNumber (intChars n ++ rest) = some (n, rest) := by
  by_cases hn : n < 0
  · simp only [intChars, if_pos hn, List.cons_append]
    simp only [parseNumber, startsWithL]
    rw [if_pos (by simp), List.drop_succ_cons, List.drop_zero, numCore_natChars _ h]
    have habs : -|n| = n := by rw [abs_of_neg hn, neg_neg]
    simp [habs]
  · simp only [intChars, if_neg hn]
    obtain ⟨d, t, hd⟩ := List.exists_cons_of_ne_nil (natChars_ne_nil n.toNat)
    have hdig : isDig d = true :=
      natChars_digits n.toNat d (by rw [hd]; exact List.mem_cons_self ..)
    have hdash := (isDig_char_facts hdig).2.2.2.2.2.2.1
    rw [hd, List.cons_append]
    simp only [parseNumber, startsWithL]
    rw [if_neg (by simp [Ne.symm hdash])]
    rw [show d :: (t ++ rest) = natChars n.toNat ++ rest from by
      rw [hd, List.cons_append]]
    rw [numCore_natChars _ h]
    have : ((n.toNat : Nat) : Int) = n := by omega
    simp [this]

/-! ## Round trip of the JSON codec: string escapes -/

theorem hx_hexCh {k : Nat} (h : k < 16) : hx (hexCh k) = some k := by
  interval_cases k <;> decide

theorem strBody_close (t : List Char) : strBody ('"' :: t) = some ([], t) := by
  conv_lhs => rw [strBody.eq_def]
  simp

theorem strBody_esc {e : Char} {ch : Char} (he : e ≠ 'u') (hu : unesc e = some ch)
    (t : List Char) :
    strBody ('\\' :: e :: t) = (strBody t).map fun p => (ch :: p.1, p.2) := by
  conv_lhs => rw [strBody.eq_def]
  simp [he, hu]

theorem strBody_u {a b c2 d : Char} {va vb vc vd : Nat}
    (ha : hx a = some va) (hb : hx b = some vb) (hc : hx c2 = some vc)
    (hd : hx d = some vd) (t : List Char) :
    strBody ('\\' :: 'u' :: a :: b :: c2 :: d :: t)
      = (strBody t).map fun p =>
          (Char.ofNat (((va * 16 + vb) * 16 + vc) * 16 + vd) :: p.1, p.2) := by
  conv_lhs => rw [strBody.eq_def]
  simp [ha, hb, hc, hd]

theorem strBody_plain {c : Char} (h1 : c ≠ '"') (h2 : c ≠ '\\')
    (h8 : ¬c.toNat < 32) (t : List Char) :
    strBody (c :: t) = (strBody t).map fun p => (c :: p.1, p.2) := by
  conv_lhs => rw [strBody.eq_def]
  simp [h1, h2, h8]

theorem strBody_escStr (s rest : List Char) :
    strBody (escStr s ++ '"' :: rest) = some (s, rest) := by
  induction s with
  | nil => simpa [escStr] using strBody_close rest
  | cons c t ih =>
    rw [show escStr (c :: t) = escCh c ++ escStr t from rfl, List.append_assoc]
    by_cases h1 : c = '"'
    · subst h1
      rw [show escCh '"' = ['\\', '"'] from by decide]
      simp [strBody_esc (by decide) (by decide : unesc '"' = some '"'), ih]
    · by_cases h2 : c = '\\'
      · subst h2
        rw [show escCh '\\' = ['\\', '\\'] from by decide]
        simp [strBody_esc (by decide) (by decide : unesc '\\' = some '\\'), ih]
      · by_cases h3 : c = '\n'
        · subst h3
          rw [show escCh '\n' = ['\\', 'n'] from by decide]
          simp [strBody_esc (by decide) (by decide : unesc 'n' = some '\n'), ih]
        · by_cases h4 : c = '\r'
          · subst h4
            rw [show escCh '\r' = ['\\', 'r'] from by decide]
            simp [strBody_esc (by decide) (by decide : unesc 'r' = some '\r'), ih]
          · by_cases h5 : c = '\t'
            · subst h5
              rw [show escCh '\t' = ['\\', 't'] from by decide]
              simp [strBody_esc (by decide) (by decide : unesc 't' = some '\t'), ih]
            · by_cases h6 : c = '\x08'
              · subst h6
                rw [show escCh '\x08' = ['\\', 'b'] from by decide]
                simp [strBody_esc (by decide) (by decide : unesc 'b' = some '\x08'), ih]
              · by_cases h7 : c = '\x0c'
                · subst h7
                  rw [show escCh '\x0c' = ['\\', 'f'] from by decide]
                  simp [strBody_esc (by decide) (by decide : unesc 'f' = some '\x0c'), ih]
                · by_cases h8 : c.toNat < 32
                  · have hhi : c.toNat / 16 < 16 := by omega
                    have hlo : c.toNat % 16 < 16 := by omega
                    have he : escCh c = ['\\', 'u', '0', '0', hexCh (c.toNat / 16),
                        hexCh (c.toNat % 16)] := by
                      simp [escCh, h1, h2, h3, h4, h5, h6, h7, h8]
                    rw [he]
                    simp only [List.cons_append, List.nil_append]
                    rw [strBody_u (by decide : hx '0' = some 0)
                      (by decide : hx '0' = some 0) (hx_hexCh hhi) (hx_hexCh hlo), ih]
                    have harith : c.toNat / 16 * 16 + c.toNat % 16 = c.toNat := by omega
                    simp only [Option.map_some, Nat.zero_mul, Nat.zero_add, Nat.mul_zero]
                    simp [harith, Char.ofNat_toNat]
                  · have he : escCh c = [c] := by
                      simp [escCh, h1, h2, h3, h4, h5, h6, h7, h8]
                    rw [he]
                    simp only [List.cons_append, List.nil_append]
                    rw [strBody_plain h1 h2 h8, ih]
                    rfl

/-! ## Round trip of the JSON codec: the value level -/

theorem wsDrop_cons {c : Char} (h : jsonWs c = false) (t : List Char) :
    wsDrop (c :: t) = c :: t := by
  simp [wsDrop, h]

theorem isDig_more_facts {c : Char} (h : isDig c = true) :
    c ≠ ']' ∧ c ≠ '\x7d' ∧ c ≠ ',' ∧ c ≠ ':' := by
  refine ⟨?_, ?_, ?_, ?_⟩ <;>
    · intro he
      rw [he] at h
      exact absurd h (by decide)

theorem intChars_head (n : Int) :
    ∃ d t, intChars n = d :: t ∧ (decide (d = '-') || isDig d) = true ∧
      jsonWs d = false ∧ ¬d = '{' ∧ ¬d = '[' ∧ ¬d = '"' ∧ ¬d = 't' ∧ ¬d = 'f' ∧
      ¬d = 'n' ∧ ¬d = ']' ∧ ¬d = '\x7d' ∧ ¬d = ',' := by
  by_cases hn : n < 0
  · exact ⟨'-', natChars n.natAbs, by simp [intChars, hn], by decide, by decide,
      by decide, by decide, by decide, by decide, by decide, by decide, by decide,
      by decide, by decide⟩
  · obtain ⟨d, t, hd⟩ := List.exists_cons_of_ne_nil (natChars_ne_nil n.toNat)
    have hdig : isDig d = true :=
      natChars_digits n.toNat d (by rw [hd]; exact List.mem_cons_self ..)
    obtain ⟨f1, f2, f3, f4, f5, f6, _, f8⟩ := isDig_char_facts hdig
    obtain ⟨g1, g2, g3, _⟩ := isDig_more_facts hdig
    exact ⟨d, t, by simp [intChars, hn, hd], by simp [hdig], f8, f1, f2, f3, f4,
      f5, f6, g1, g2, g3⟩

theorem jdump_head (v : Jv) :
    ∃ c t, jdump v = c :: t ∧ jsonWs c = false ∧ ¬c = ']' ∧ ¬c = '\x7d' ∧
      ¬c = ',' := by
  cases v with
  | jnull => exact ⟨'n', _, rfl, by decide, by decide, by decide, by decide⟩
  | jbool b =>
    cases b
    · exact ⟨'f', _, rfl, by decide, by decide, by decide, by decide⟩
    · exact ⟨'t', _, rfl, by decide, by decide, by decide, by decide⟩
  | jnum n =>
    obtain ⟨d, t, hd, _, hws, _, _, _, _, _, _, g1, g2, g3⟩ := intChars_head n
    exact ⟨d, t, hd, hws, g1, g2, g3⟩
  | jstr s => exact ⟨'"', _, rfl, by decide, by decide, by decide, by decide⟩
  | jarr a =>
    cases a
    · exact ⟨'[', _, rfl, by decide, by decide, by decide, by decide⟩
    · exact ⟨'[', _, rfl, by decide, by decide, by decide, by decide⟩
  | jobj o =>
    cases o
    · exact ⟨'{', _, rfl, by decide, by decide, by decide, by decide⟩
    · exact ⟨'{', _, rfl, by decide, by decide, by decide, by decide⟩

theorem numOk_arr (vs : Ja) (rest : List Char) :
    numOk (jdumpA vs ++ (']' :: rest)) = true := by
  cases vs <;> rfl

theorem numOk_obj (ms : Jo) (rest : List Char) :
    numOk (jdumpO ms ++ ('\x7d' :: rest)) = true := by
  cases ms <;> rfl

theorem string_mk_toList (s : String) : String.mk s.toList = s := by
  cases s
  rfl

mutual
theorem rtV : ∀ (v : Jv) (fu : Nat) (rest : List Char),
    (jdump v).length < fu → numOk rest = true →
    jparseV fu (jdump v ++ rest) = some (v, rest)
  | .jnull, fu, rest, hf, _ => by
    cases fu with
    | zero => exact absurd hf (Nat.not_lt_zero _)
    | succ f => simp [jdump, jparseV, wsDrop, jsonWs]
  | .jbool b, fu, rest, hf, _ => by
    cases fu with
    | zero => exact absurd hf (Nat.not_lt_zero _)
    | succ f => cases b <;> simp [jdump, jparseV, wsDrop, jsonWs]
  | .jnum n, fu, rest, hf, hr => by
    cases fu with
    | zero => exact absurd hf (Nat.not_lt_zero _)
    | succ f =>
      obtain ⟨d, t, hd, hdig, hws, h1, h2, h3, h4, h5, h6, _, _, _⟩ := intChars_head n
      have hp := parseNumber_intChars n hr
      rw [show jdump (.jnum n) = intChars n from rfl, hd, List.cons_append]
      simp only [jparseV]
      rw [wsDrop_cons hws]
      simp only [if_neg h1, if_neg h2, if_neg h3, if_neg h4, if_neg h5, if_neg h6,
        hdig, if_pos]
      rw [← List.cons_append, ← hd, hp]
      rfl
  | .jstr s, fu, rest, hf, _ => by
    cases fu with
    | zero => exact absurd hf (Nat.not_lt_zero _)
    | succ f =>
      rw [show jdump (.jstr s) ++ rest = '"' :: (escStr s.toList ++ ('"' :: rest)) from by
        simp [jdump]]
      simp [jparseV, wsDrop, jsonWs, strBody_escStr, string_mk_toList]
  | .jarr .anil, fu, rest, hf, _ => by
    cases fu with
    | zero => exact absurd hf (Nat.not_lt_zero _)
    | succ f => simp [jdump, jparseV, wsDrop, jsonWs]
  | .jarr (.acons v vs), fu, rest, hf, _ => by
    cases fu with
    | zero => exact absurd hf (Nat.not_lt_zero _)
    | succ f =>
      have hlen : (jdump v).length + (jdumpA vs).length + 1 < f := by
        simp only [jdump, List.length_cons, List.length_append] at hf
        omega
      obtain ⟨c, t, hc, hws, hne1, _, _⟩ := jdump_head v
      rw [show jdump (.jarr (.acons v vs)) ++ rest
        = '[' :: (jdump v ++ (jdumpA vs ++ (']' :: rest))) from by simp [jdump]]
      simp only [jparseV]
      rw [wsDrop_cons (by decide)]
      simp only [if_neg (by decide : ¬('[' : Char) = '{'), if_pos rfl, if_true]
      rw [hc, List.cons_append, wsDrop_cons hws]
      have harm : jparseA f (c :: (t ++ (jdumpA vs ++ (']' :: rest))))
          = some (.acons v vs, rest) := by
        rw [← List.cons_append, ← hc]
        exact rtA v vs f rest hlen
      split
      · rename_i heq
        rw [List.cons.injEq] at heq
        exact absurd heq.1 hne1
      · rw [harm]
        rfl
  | .jobj .onil, fu, rest, hf, _ => by
    cases fu with
    | zero => exact absurd hf (Nat.not_lt_zero _)
    | succ f => simp [jdump, jparseV, wsDrop, jsonWs]
  | .jobj (.ocons k v ms), fu, rest, hf, _ => by
    cases fu with
    | zero => exact absurd hf (Nat.not_lt_zero _)
    | succ f =>
      have hlen : (jkey k).length + (jdump v).length + (jdumpO ms).length + 1 < f := by
        simp only [jdump, List.length_cons, List.length_append] at hf
        omega
      rw [show jdump (.jobj (.ocons k v ms)) ++ rest
        = '{' :: (jkey k ++ (jdump v ++ (jdumpO ms ++ ('\x7d' :: rest)))) from by
          simp [jdump]]
      simp only [jparseV]
      rw [wsDrop_cons (by decide)]
      simp only [if_pos rfl, if_true]
      rw [show jkey k ++ (jdump v ++ (jdumpO ms ++ ('\x7d' :: rest)))
        = '"' :: (escStr k.toList ++ ('"' :: (':' :: (jdump v ++
            (jdumpO ms ++ ('\x7d' :: rest)))))) from by simp [jkey]]
      rw [wsDrop_cons (by decide)]
      have hbody : jparseO f ('"' :: (escStr k.toList ++ ('"' :: (':' :: (jdump v ++
          (jdumpO ms ++ ('\x7d' :: rest))))))) = some (.ocons k v ms, rest) := by
        rw [show ('"' : Char) :: (escStr k.toList ++ ('"' :: (':' :: (jdump v ++
            (jdumpO ms ++ ('\x7d' :: rest))))))
          = jkey k ++ (jdump v ++ (jdumpO ms ++ ('\x7d' :: rest))) from by simp [jkey]]
        exact rtO k v ms f rest (by omega)
      split
      · rename_i heq
        rw [List.cons.injEq] at heq
        exact absurd heq.1 (by decide)
      · rw [hbody]
        rfl
  termination_by v _ _ _ _ => sizeOf v
theorem rtA : ∀ (v : Jv) (vs : Ja) (fu : Nat) (rest : List Char),
    (jdump v).length + (jdumpA vs).length + 1 < fu →
    jparseA fu (jdump v ++ (jdumpA vs ++ (']' :: rest))) = some (.acons v vs, rest)
  | v, vs, fu, rest, hf => by
    cases fu with
    | zero => exact absurd hf (Nat.not_lt_zero _)
    | succ f =>
      simp only [jparseA]
      rw [rtV v f (jdumpA vs ++ (']' :: rest)) (by omega) (numOk_arr vs rest)]
      cases vs with
      | anil => simp [jdumpA, wsDrop, jsonWs]
      | acons v2 vs2 =>
        have hlen : (jdump v2).length + (jdumpA vs2).length + 1 < f := by
          simp only [jdumpA, List.length_cons, List.length_append] at hf
          omega
        rw [show jdumpA (.acons v2 vs2) ++ (']' :: rest)
          = ',' :: (jdump v2 ++ (jdumpA vs2 ++ (']' :: rest))) from by simp [jdumpA]]
        simp only [show ∀ t : List Char, wsDrop (',' :: t) = ',' :: t from fun _ => rfl]
        rw [rtA v2 vs2 f rest hlen]
        rfl
  termination_by v vs _ _ _ => sizeOf v + sizeOf vs + 1
theorem rtO : ∀ (k : String) (v : Jv) (ms : Jo) (fu : Nat) (rest : List Char),
    (jkey k).length + (jdump v).length + (jdumpO ms).length + 1 < fu →
    jparseO fu (jkey k ++ (jdump v ++ (jdumpO ms ++ ('\x7d' :: rest))))
      = some (.ocons k v ms, rest)
  | k, v, ms, fu, rest, hf => by
    cases fu with
    | zero => exact absurd hf (Nat.not_lt_zero _)
    | succ f =>
      simp only [jparseO]
      rw [show jkey k ++ (jdump v ++ (jdumpO ms ++ ('\x7d' :: rest)))
        = '"' :: (escStr k.toList ++ ('"' :: (':' :: (jdump v ++
            (jdumpO ms ++ ('\x7d' :: rest)))))) from by simp [jkey]]
      simp only [show ∀ t : List Char, wsDrop ('"' :: t) = '"' :: t from fun _ => rfl,
        strBody_escStr,
        show ∀ t : List Char, wsDrop (':' :: t) = ':' :: t from fun _ => rfl]
      rw [rtV v f (jdumpO ms ++ ('\x7d' :: rest))
        (by simp only [jkey, List.length_cons, List.length_append] at hf; omega)
        (numOk_obj ms rest)]
      rw [string_mk_toList]
      cases ms with
      | onil => simp [jdumpO, wsDrop, jsonWs]
      | ocons k2 v2 ms2 =>
        have hlen : (jkey k2).length + (jdump v2).length + (jdumpO ms2).length + 1 < f := by
          simp only [jdumpO, List.length_cons, List.length_append] at hf
          omega
        rw [show jdumpO (.ocons k2 v2 ms2) ++ ('\x7d' :: rest)
          = ',' :: (jkey k2 ++ (jdump v2 ++ (jdumpO ms2 ++ ('\x7d' :: rest)))) from by
            simp [jdumpO]]
        simp only [show ∀ t : List Char, wsDrop (',' :: t) = ',' :: t from fun _ => rfl]
        rw [rtO k2 v2 ms2 f rest hlen]
        rfl
  termination_by k v ms _ _ _ => sizeOf v + sizeOf ms + 1
end

/-- The JSON codec round trip: parsing a serialized value recovers it
exactly. -/
theorem jsonParse_stringify (v : Jv) : jsonParse (jsonStringify v) = some v := by
  have h := rtV v ((jdump v).length + 1) [] (by omega) rfl
  rw [List.append_nil] at h
  have h1 : (jsonStringify v).toList = jdump v := rfl
  have h2 : (jsonStringify v).length = (jdump v).length := rfl
  rw [jsonParse, h1, h2, h]
  rfl

/-! ## Object and store lemmas for the annotation-notes claims -/

theorem jGet_jSet_self : ∀ (o : Jo) (k : String) (v : Jv), jGet (jSet o k v) k = some v
  | .onil, k, v => by simp [jSet, jGet]
  | .ocons k1 v1 rest, k, v => by
    by_cases h : k1 = k
    · subst h
      simp [jSet, jGet]
    · simp [jSet, jGet, h, jGet_jSet_self rest k v]

theorem jGet_jSet_ne : ∀ (o : Jo) {k k' : String}, k' ≠ k → ∀ (v : Jv),
    jGet (jSet o k v) k' = jGet o k'
  | .onil, k, k', h, v => by simp [jSet, jGet, Ne.symm h]
  | .ocons k1 v1 rest, k, k', h, v => by
    by_cases h1 : k1 = k
    · subst h1
      simp [jSet, jGet, Ne.symm h]
    · by_cases h2 : k1 = k'
      · subst h2
        simp [jSet, jGet, h1]
      · simp [jSet, jGet, h1, h2, jGet_jSet_ne rest h v]

theorem jSet_jSet_self : ∀ (o : Jo) (k : String) (v1 v2 : Jv),
    jSet (jSet o k v1) k v2 = jSet o k v2
  | .onil, k, v1, v2 => by simp [jSet]
  | .ocons k1 w rest, k, v1, v2 => by
    by_cases h : k1 = k
    · subst h
      simp [jSet]
    · simp [jSet, h, jSet_jSet_self rest k v1 v2]

/-- Merging the single annotation-notes field is one `jSet`. -/
theorem mergeFields_single (base : Jo) (k : String) (v : Jv) :
    mergeFields base (.ocons k v .onil) = jSet base k v := rfl

/-- Patching the annotation-notes field of any set of records does not change
which record a task number resolves to (only its fields). -/
theorem findByTask_patchNotes (S : List AirRecord) (t : String) (rid : String) (x : Jv) :
    findByTask (patchRecord S rid (.ocons annotationNotesKey x .onil)) t
      = (findByTask S t).map fun r =>
          if r.id = rid then ⟨r.id, jSet r.fields annotationNotesKey x⟩ else r := by
  induction S with
  | nil => rfl
  | cons r rs ih =>
    have hpr : patchRecord (r :: rs) rid (.ocons annotationNotesKey x .onil)
        = (if r.id = rid then ⟨r.id, jSet r.fields annotationNotesKey x⟩ else r)
          :: patchRecord rs rid (.ocons annotationNotesKey x .onil) := by
      simp only [patchRecord, List.map_cons, mergeFields_single]
    rw [hpr]
    have htask : taskOf (if r.id = rid
        then (⟨r.id, jSet r.fields annotationNotesKey x⟩ : AirRecord) else r)
        = taskOf r := by
      by_cases h : r.id = rid
      · simp only [if_pos h, taskOf]
        rw [jGet_jSet_ne _ (by decide) _]
      · simp [if_neg h]
    simp only [findByTask, htask]
    by_cases hm : taskOf r = some t
    · rw [if_pos hm, if_pos hm]
      rfl
    · rw [if_neg hm, if_neg hm]
      exact ih

/-- A serialized object is never the empty string, so the stored notes field
is truthy on the next read. -/
theorem jsonStringify_jobj_ne_empty (o : Jo) : jsonStringify (.jobj o) ≠ "" := by
  intro h
  have : (jsonStringify (.jobj o)).toList = [] := by rw [h]; rfl
  have h2 : (jsonStringify (.jobj o)).toList = jdump (.jobj o) := rfl
  rw [h2] at this
  cases o <;> simp [jdump] at this

theorem jsonParse_empty : jsonParse "" = none := rfl

/-- One call of `updateAnnotationNote` on a store where the task resolves:
the record's notes are rewritten in place. -/
theorem updateAnnotationNote_found (S : List AirRecord) (t key : String) (v : Jv)
    (r : AirRecord) (hfind : findByTask S t = some r) :
    updateAnnotationNote S t key v
      = .ok (patchRecord S r.id (.ocons annotationNotesKey
          (.jstr (jsonStringify (setNoteProp
            (noteBase (jGet r.fields annotationNotesKey)) key v))) .onil)) := by
  unfold updateAnnotationNote
  rw [hfind]

/-- After one update, the task resolves to the patched record and its stored
notes text is the serialized updated map. -/
theorem storedNotes_after_update (S : List AirRecord) (t key : String) (v : Jv)
    (r : AirRecord) (hfind : findByTask S t = some r)
    (m : Jo) (hbase : noteBase (jGet r.fields annotationNotesKey) = .jobj m) :
    ∃ S1, updateAnnotationNote S t key v = .ok S1 ∧
      findByTask S1 t = some ⟨r.id, jSet r.fields annotationNotesKey
        (.jstr (jsonStringify (.jobj (jSet m key v))))⟩ := by
    refine ⟨_, updateAnnotationNote_found S t key v r hfind, ?_⟩
    rw [hbase]
    rw [show setNoteProp (Jv.jobj m) key v = .jobj (jSet m key v) from rfl]
    rw [findByTask_patchNotes, hfind]
    simp

/-! ## Claim C1 -/

/-- Claim C1: starting from a record whose `Annotation Notes` field holds a
serialized JSON map `m`, two `updateAnnotationNote` calls with distinct keys
leave a stored text that parses to a map holding both `k1 ↦ v1` and
`k2 ↦ v2`; two calls with the same key leave only the later value — the
second write overwrites the first binding in place rather than appending. -/
theorem claim_C1 (S : List AirRecord) (t k1 k2 : String) (v1 v2 : Jv)
    (r : AirRecord) (s : String) (m : Jo)
    (hfind : findByTask S t = some r)
    (hAN : jGet r.fields annotationNotesKey = some (.jstr s))
    (hparse : jsonParse s = some (.jobj m)) :
    (k1 ≠ k2 →
      ∃ S1 S2 s2,
        updateAnnotationNote S t k1 v1 = .ok S1 ∧
        updateAnnotationNote S1 t k2 v2 = .ok S2 ∧
        storedNotes S2 t = some (.jstr s2) ∧
        jsonParse s2 = some (.jobj (jSet (jSet m k1 v1) k2 v2)) ∧
        jGet (jSet (jSet m k1 v1) k2 v2) k1 = some v1 ∧
        jGet (jSet (jSet m k1 v1) k2 v2) k2 = some v2) ∧
    (∃ S1 S2 s2,
        updateAnnotationNote S t k1 v1 = .ok S1 ∧
        updateAnnotationNote S1 t k1 v2 = .ok S2 ∧
        storedNotes S2 t = some (.jstr s2) ∧
        jsonParse s2 = some (.jobj (jSet m k1 v2)) ∧
        jGet (jSet m k1 v2) k1 = some v2) := by
  have hs_ne : s ≠ "" := by
    intro he
    rw [he, jsonParse_empty] at hparse
    exact Option.noConfusion hparse
  have hbase : noteBase (jGet r.fields annotationNotesKey) = .jobj m := by
    rw [hAN]
    simp only [noteBase, truthy]
    rw [if_pos (by simpa using hs_ne), hparse]
  obtain ⟨S1, hup1, hfind1⟩ := storedNotes_after_update S t k1 v1 r hfind m hbase
  have hbase1 : noteBase (jGet (jSet r.fields annotationNotesKey
      (.jstr (jsonStringify (.jobj (jSet m k1 v1))))) annotationNotesKey)
      = .jobj (jSet m k1 v1) := by
    rw [jGet_jSet_self]
    simp only [noteBase, truthy]
    rw [if_pos (by simpa using jsonStringify_jobj_ne_empty (jSet m k1 v1)),
      jsonParse_stringify]
  constructor
  · intro hne
    obtain ⟨S2, hup2, hfind2⟩ := storedNotes_after_update S1 t k2 v2 _ hfind1
      (jSet m k1 v1) hbase1
    refine ⟨S1, S2, jsonStringify (.jobj (jSet (jSet m k1 v1) k2 v2)), hup1, hup2, ?_,
      jsonParse_stringify _, ?_, ?_⟩
    · rw [storedNotes, hfind2]
      simp [jGet_jSet_self]
    · rw [jGet_jSet_ne _ hne, jGet_jSet_self]
    · rw [jGet_jSet_self]
  · obtain ⟨S2, hup2, hfind2⟩ := storedNotes_after_update S1 t k1 v2 _ hfind1
      (jSet m k1 v1) hbase1
    refine ⟨S1, S2, jsonStringify (.jobj (jSet (jSet m k1 v1) k1 v2)), hup1, hup2, ?_, ?_, ?_⟩
    · rw [storedNotes, hfind2]
      simp [jGet_jSet_self]
    · rw [jSet_jSet_self, jsonParse_stringify]
    · rw [jGet_jSet_self]

/-- Witness for claim C1: a one-record store whose notes field holds the
serialized empty map, task `42`, distinct keys `a` and `b`. -/
theorem claim_C1_witness :
    ∃ S1 S2 s2,
      updateAnnotationNote [⟨"rec1", .ocons "Task Number" (.jstr "42")
          (.ocons "Annotation Notes" (.jstr "\x7b\x7d") .onil)⟩] "42" "a" (.jstr "x")
        = .ok S1 ∧
      updateAnnotationNote S1 "42" "b" (.jbool true) = .ok S2 ∧
      storedNotes S2 "42" = some (.jstr s2) ∧
      jsonParse s2 = some (.jobj (jSet (jSet .onil "a" (.jstr "x")) "b" (.jbool true))) ∧
      jGet (jSet (jSet .onil "a" (.jstr "x")) "b" (.jbool true)) "a" = some (.jstr "x") ∧
      jGet (jSet (jSet .onil "a" (.jstr "x")) "b" (.jbool true)) "b" = some (.jbool true) :=
  (claim_C1 [⟨"rec1", .ocons "Task Number" (.jstr "42")
      (.ocons "Annotation Notes" (.jstr "\x7b\x7d") .onil)⟩] "42" "a" "b"
    (.jstr "x") (.jbool true)
    ⟨"rec1", .ocons "Task Number" (.jstr "42")
      (.ocons "Annotation Notes" (.jstr "\x7b\x7d") .onil)⟩
    "\x7b\x7d" .onil rfl rfl rfl).1 (by decide)

/-! ## Claim C5 -/

/-- Claim C5: `updateAnnotationNote` throws exactly when no record matches
the task number (the store is untouched, as the error return carries no new
store); when the record exists but its `Annotation Notes` field is absent,
or holds a string that fails to parse as JSON, the call succeeds starting
from the empty map, so the field is written back as the serialized
single-entry map `\x7bkey ↦ value\x7d`. -/
theorem claim_C5 (S : List AirRecord) (t k : String) (v : Jv) :
    (findByTask S t = none →
      updateAnnotationNote S t k v
        = .error ("No record found in Airtable with Task Number: " ++ t)) ∧
    (∀ r, findByTask S t = some r →
      jGet r.fields annotationNotesKey = none →
      ∃ S1, updateAnnotationNote S t k v = .ok S1 ∧
        storedNotes S1 t = some (.jstr (jsonStringify (.jobj (.ocons k v .onil)))) ∧
        jsonParse (jsonStringify (.jobj (.ocons k v .onil)))
          = some (.jobj (.ocons k v .onil))) ∧
    (∀ r s, findByTask S t = some r →
      jGet r.fields annotationNotesKey = some (.jstr s) →
      jsonParse s = none →
      ∃ S1, updateAnnotationNote S t k v = .ok S1 ∧
        storedNotes S1 t = some (.jstr (jsonStringify (.jobj (.ocons k v .onil)))) ∧
        jsonParse (jsonStringify (.jobj (.ocons k v .onil)))
          = some (.jobj (.ocons k v .onil))) := by
  refine ⟨?_, ?_, ?_⟩
  · intro hnone
    unfold updateAnnotationNote
    rw [hnone]
  · intro r hfind hAN
    have hbase : noteBase (jGet r.fields annotationNotesKey) = .jobj .onil := by
      rw [hAN]
      rfl
    obtain ⟨S1, hup, hfind1⟩ := storedNotes_after_update S t k v r hfind .onil hbase
    refine ⟨S1, hup, ?_, jsonParse_stringify _⟩
    rw [storedNotes, hfind1]
    simp [jGet_jSet_self]
    rfl
  · intro r s hfind hAN hparse
    have hbase : noteBase (jGet r.fields annotationNotesKey) = .jobj .onil := by
      rw [hAN]
      by_cases hs : s = ""
      · subst hs
        rfl
      · simp only [noteBase, truthy]
        rw [if_pos (by simpa using hs), hparse]
    obtain ⟨S1, hup, hfind1⟩ := storedNotes_after_update S t k v r hfind .onil hbase
    refine ⟨S1, hup, ?_, jsonParse_stringify _⟩
    rw [storedNotes, hfind1]
    simp [jGet_jSet_self]
    rfl

/-- Witness for claim C5: an empty store (lookup failure) and a one-record
store whose notes field holds unparseable text. -/
theorem claim_C5_witness :
    (updateAnnotationNote [] "7" "k" (.jstr "v")
      = .error ("No record found in Airtable with Task Number: " ++ "7")) ∧
    (∃ S1,
      updateAnnotationNote [⟨"r", .ocons "Task Number" (.jstr "7")
          (.ocons "Annotation Notes" (.jstr "corrupt \x7b") .onil)⟩] "7" "k" (.jstr "v")
        = .ok S1 ∧
      storedNotes S1 "7"
        = some (.jstr (jsonStringify (.jobj (.ocons "k" (.jstr "v") .onil)))) ∧
      jsonParse (jsonStringify (.jobj (.ocons "k" (.jstr "v") .onil)))
        = some (.jobj (.ocons "k" (.jstr "v") .onil))) :=
  ⟨(claim_C5 [] "7" "k" (.jstr "v")).1 rfl,
    (claim_C5 [⟨"r", .ocons "Task Number" (.jstr "7")
        (.ocons "Annotation Notes" (.jstr "corrupt \x7b") .onil)⟩] "7" "k" (.jstr "v")).2.2
      ⟨"r", .ocons "Task Number" (.jstr "7")
        (.ocons "Annotation Notes" (.jstr "corrupt \x7b") .onil)⟩
      "corrupt \x7b" rfl rfl rfl⟩

/-! ## Claim C6 -/

/-- Claim C6: for every non-empty task number, the `record-by-task-number`
route answers an upstream result with zero matching records by HTTP 200 and
body `null` — not 404 and not an error — and answers a non-empty match list
by HTTP 200 with the first record's id and fields. -/
theorem claim_C6 (t : String) (ht : t ≠ "") :
    recordByTaskNumberRoute (some t) (.good (some [])) = ⟨200, .jnull⟩ ∧
    recordByTaskNumberRoute (some t) (.good none) = ⟨200, .jnull⟩ ∧
    (∀ (r : UpRecord) (rs : List UpRecord),
      recordByTaskNumberRoute (some t) (.good (some (r :: rs)))
        = ⟨200, .jobj (.ocons "id" (.jstr r.id)
            (.ocons "fields" (.jobj (upFieldsObj r)) .onil))⟩) := by
  refine ⟨?_, ?_, ?_⟩ <;>
    first
    | · intro r rs
        unfold recordByTaskNumberRoute
        rw [if_neg (by simpa using ht)]
    | · unfold recordByTaskNumberRoute
        rw [if_neg (by simpa using ht)]

/-- Witness for claim C6 at task number `42`. -/
theorem claim_C6_witness :
    recordByTaskNumberRoute (some "42") (.good (some [])) = ⟨200, .jnull⟩ ∧
    recordByTaskNumberRoute (some "42") (.good none) = ⟨200, .jnull⟩ ∧
    (∀ (r : UpRecord) (rs : List UpRecord),
      recordByTaskNumberRoute (some "42") (.good (some (r :: rs)))
        = ⟨200, .jobj (.ocons "id" (.jstr r.id)
            (.ocons "fields" (.jobj (upFieldsObj r)) .onil))⟩) :=
  claim_C6 "42" (by decide)

/-! ## Claim C4 -/

theorem count5_eq_five (b1 b2 b3 b4 b5 : Bool) :
    (List.filter id [b1, b2, b3, b4, b5]).length = 5 ↔
      (b1 = true ∧ b2 = true ∧ b3 = true ∧ b4 = true ∧ b5 = true) := by
  cases b1 <;> cases b2 <;> cases b3 <;> cases b4 <;> cases b5 <;> decide

/-- Claim C4: a form whose only selection is the `other` error flag with a
blank explanation and all four dropdowns unset counts 0 of 5 answered; in
general the fifth sub-question is answered exactly when some flag is set and
a set `other` flag has a non-blank explanation; the section is complete
exactly when all five sub-questions are answered. -/
theorem claim_C4 :
    (∀ (expl otherAC : String), trimL expl.toList = [] →
      answeredQuestions ⟨"", otherAC, "", "", "",
        { initialErrorFlags with other := true }, expl⟩ = 0) ∧
    (∀ s : FormState,
      (anyFlagSet s.errorFlags && hasValidOtherExplanation s) = true ↔
        (anyFlagSet s.errorFlags = true ∧
          (s.errorFlags.other = true → 0 < (trimL s.otherErrorExplanation.toList).length))) ∧
    (∀ s : FormState, isComplete s = true ↔
      (hasActionCategory s = true ∧ s.actionCorrectness ≠ "" ∧ s.reasoningQuality ≠ "" ∧
        s.sandboxResponse ≠ "" ∧
        (anyFlagSet s.errorFlags && hasValidOtherExplanation s) = true)) := by
  refine ⟨?_, ?_, ?_⟩
  · intro expl otherAC h
    simp [answeredQuestions, subAnswers, hasActionCategory, anyFlagSet,
      hasValidOtherExplanation, initialErrorFlags, h]
    exact h
  · intro s
    rw [Bool.and_eq_true]
    simp only [hasValidOtherExplanation, Bool.or_eq_true, Bool.not_eq_true',
      decide_eq_true_eq]
    constructor
    · rintro ⟨ha, hb | hb⟩
      · exact ⟨ha, fun ho => absurd ho (by simp [hb])⟩
      · exact ⟨ha, fun _ => hb⟩
    · rintro ⟨ha, hb⟩
      refine ⟨ha, ?_⟩
      by_cases ho : s.errorFlags.other = true
      · exact Or.inr (hb ho)
      · exact Or.inl (by simpa using ho)
  · intro s
    have hc := count5_eq_five (hasActionCategory s) (decide (s.actionCorrectness ≠ ""))
      (decide (s.reasoningQuality ≠ "")) (decide (s.sandboxResponse ≠ ""))
      (anyFlagSet s.errorFlags && hasValidOtherExplanation s)
    simp only [decide_eq_true_eq] at hc
    simp only [isComplete, answeredQuestions, subAnswers, totalQuestions,
      decide_eq_true_eq]
    exact hc

/-- Witness for claim C4: the zero-count state with a whitespace-only
explanation. -/
theorem claim_C4_witness :
    answeredQuestions ⟨"", "x", "", "", "",
      { initialErrorFlags with other := true }, "  "⟩ = 0 :=
  claim_C4.1 "  " "x" rfl

/-! ## Claim C9 -/

theorem naExclusiveB_toggle (f : ErrorFlags) (k : ErrorFlagKey) :
    naExclusiveB f = true → naExclusiveB (toggleErrorFlag f k) = true := by
  cases f with
  | mk b1 b2 b3 b4 b5 b6 b7 b8 b9 =>
    cases k <;> (revert b1 b2 b3 b4 b5 b6 b7 b8 b9; decide)

/-- Claim C9: in every flag state reachable from the all-false initial state
by toggles, `na` is never set together with any other flag; moreover turning
`na` on resets every other flag, and turning any other flag on clears
`na`. -/
theorem claim_C9 :
    (∀ f : ErrorFlags, naExclusiveB f = true ↔
      (f.na = true → (f.hallucination = false ∧ f.repetitionLoop = false ∧
        f.misdiagnosis = false ∧ f.toolMisuse = false ∧ f.ignoredFeedback = false ∧
        f.prematureConclusion = false ∧ f.scopeCreep = false ∧ f.other = false))) ∧
    (∀ ops : List ErrorFlagKey,
      naExclusiveB (ops.foldl toggleErrorFlag initialErrorFlags) = true) ∧
    (∀ f : ErrorFlags, f.na = false →
      toggleErrorFlag f .na = { initialErrorFlags with na := true }) ∧
    (∀ (f : ErrorFlags) (k : ErrorFlagKey), k ≠ .na →
      getFlag (toggleErrorFlag f k) k = true → (toggleErrorFlag f k).na = false) := by
  refine ⟨?_, ?_, ?_, ?_⟩
  · intro f
    cases f with
    | mk b1 b2 b3 b4 b5 b6 b7 b8 b9 => revert b1 b2 b3 b4 b5 b6 b7 b8 b9; decide
  · intro ops
    have hstep : ∀ (l : List ErrorFlagKey) (f : ErrorFlags), naExclusiveB f = true →
        naExclusiveB (l.foldl toggleErrorFlag f) = true := by
      intro l
      induction l with
      | nil => intro f hf; simpa using hf
      | cons k rest ih =>
        intro f hf
        exact ih _ (naExclusiveB_toggle f k hf)
    exact hstep ops initialErrorFlags (by decide)
  · intro f
    cases f with
    | mk b1 b2 b3 b4 b5 b6 b7 b8 b9 => revert b1 b2 b3 b4 b5 b6 b7 b8 b9; decide
  · intro f k
    cases f with
    | mk b1 b2 b3 b4 b5 b6 b7 b8 b9 =>
      cases k <;> (revert b1 b2 b3 b4 b5 b6 b7 b8 b9; decide)

/-- Witness for claim C9: a concrete toggle sequence, and `na` resetting a
state with two other flags set. -/
theorem claim_C9_witness :
    naExclusiveB ([ErrorFlagKey.hallucination, ErrorFlagKey.other,
      ErrorFlagKey.na].foldl toggleErrorFlag initialErrorFlags) = true ∧
    toggleErrorFlag { initialErrorFlags with hallucination := true, other := true }
      .na = { initialErrorFlags with na := true } :=
  ⟨claim_C9.2.1 _, claim_C9.2.2.1 _ rfl⟩

/-! ## Claim C8 -/

/-- Counterexample to claim C8 as stated: `xgithub.com` is not a github.com
host, yet the URL is accepted and mapped (the code checks substring
containment of "github.com" in the hostname, not host identity), and a
github.com URL whose pathname contains `/blob/` twice throws instead of
being mapped. -/
theorem claim_C8_counterexample :
    convertToRawUrl "https://xgithub.com/foo/bar"
      = .ok "https://raw.githubusercontent.com/foo/bar/main/README.md" ∧
    convertToRawUrl "https://github.com/u/r/blob/main/blob/x.md"
      = .error "Invalid GitHub blob URL format" := by
  constructor <;> rfl

/-- Claim C8 as amended: a URL whose hostname does not contain the substring
`github.com` (or which does not parse) is rejected with an error before any
network access; when the hostname contains `github.com` and the pathname
splits on `/blob/` into exactly two parts the blob URL is rewritten to the
raw host with the `/blob` component removed; with no `/blob/` in the
pathname, a `/owner/repo` path maps to the `main`-branch README with a
trailing `.git` stripped from the repository name. -/
theorem claim_C8_amended (s : String) :
    (parseURL s = none → convertToRawUrl s = .error "Invalid URL format") ∧
    (∀ u, parseURL s = some u → strContains u.hostname "github.com" = false →
      convertToRawUrl s = .error "Invalid URL format") ∧
    (∀ u a b, parseURL s = some u → strContains u.hostname "github.com" = true →
      strContains u.pathname "/blob/" = true →
      jsSplit u.pathname "/blob/" = [a, b] →
      convertToRawUrl s = .ok ("https://raw.githubusercontent.com" ++ a ++ "/" ++ b)) ∧
    (∀ u o rep, parseURL s = some u → strContains u.hostname "github.com" = true →
      strContains u.pathname "/blob/" = false →
      ownerRepoOf u.pathname.toList = some (o, rep) →
      convertToRawUrl s = .ok ("https://raw.githubusercontent.com/" ++ String.mk o ++
        "/" ++ String.mk (stripGitSuffix rep) ++ "/main/README.md")) := by
  refine ⟨?_, ?_, ?_, ?_⟩
  · intro hpu
    unfold convertToRawUrl
    rw [hpu]
  · intro u hpu hcont
    unfold convertToRawUrl
    rw [hpu]
    simp [hcont]
  · intro u a b hpu hcont hblob hsplit
    unfold convertToRawUrl
    rw [hpu]
    simp [hcont, hblob, hsplit]
  · intro u o rep hpu hcont hblob hrep
    have hrep1 : ownerRepoOf u.pathname.data = some (o, rep) := hrep
    unfold convertToRawUrl
    rw [hpu]
    simp [hcont, hblob, hrep1]

/-- Witness for the amended claim C8: a blob URL and a bare repository URL. -/
theorem claim_C8_witness :
    convertToRawUrl "https://github.com/user/repo/blob/main/123.md"
      = .ok ("https://raw.githubusercontent.com" ++ "/user/repo" ++ "/" ++ "main/123.md") ∧
    convertToRawUrl "https://github.com/user/repo.git"
      = .ok ("https://raw.githubusercontent.com/" ++ String.mk ['u', 's', 'e', 'r'] ++
        "/" ++ String.mk (stripGitSuffix ['r', 'e', 'p', 'o', '.', 'g', 'i', 't']) ++
        "/main/README.md") :=
  ⟨(claim_C8_amended "https://github.com/user/repo/blob/main/123.md").2.2.1
      ⟨"github.com", "/user/repo/blob/main/123.md"⟩ "/user/repo" "main/123.md"
      rfl rfl rfl rfl,
    (claim_C8_amended "https://github.com/user/repo.git").2.2.2
      ⟨"github.com", "/user/repo.git"⟩ ['u', 's', 'e', 'r']
      ['r', 'e', 'p', 'o', '.', 'g', 'i', 't'] rfl rfl rfl rfl⟩

/-! ## Claims C7 and C10: segmentation structure -/

theorem mdConcat_append (a b : List Seg) : mdConcat (a ++ b) = mdConcat a ++ mdConcat b := by
  induction a with
  | nil => rfl
  | cons s rest ih => cases s <;> simp [mdConcat, ih]

theorem segCore_ne_nil (fu : Nat) (h : Option (List Char)) (l : List Char) (hl : l ≠ []) :
    segCore (fu + 1) h l ≠ [] := by
  simp only [segCore]
  cases hm : findMarker l with
  | none => simp [hl]
  | some p =>
    obtain ⟨p1, p2, p3⟩ := p
    by_cases hp : p1 = [] <;> simp [hp]

theorem mdConcat_segCore (fu : Nat) :
    ∀ (h : Option (List Char)) (l : List Char),
      mdConcat (segCore fu h l) = stripMarkersF fu l := by
  induction fu with
  | zero => intro h l; rfl
  | succ f ih =>
    intro h l
    simp only [segCore, stripMarkersF]
    cases hm : findMarker l with
    | none =>
      by_cases hl : l = []
      · subst hl
        simp [mdConcat]
      · simp [hl, mdConcat]
    | some p =>
      obtain ⟨p1, p2, p3⟩ := p
      rw [mdConcat_append]
      by_cases hp : p1 = []
      · subst hp
        simp [mdConcat, ih]
      · simp [hp, mdConcat, ih]

/-- Claim C10: the segmentation loses no text — concatenating the markdown
segments' contents recovers the anchor-stripped document with exactly the
marker matches deleted (the global single-pass replace), nothing else
removed and nothing duplicated. -/
theorem claim_C10 (doc : List Char) :
    mdConcat (segmentsOf doc) = stripMarkers (stripAnchors doc) := by
  unfold segmentsOf stripMarkers
  by_cases hpc : stripAnchors doc = []
  · rw [hpc]
    simp [mdConcat, stripMarkersF, findMarker]
  · rw [if_neg hpc]
    have hmain := mdConcat_segCore ((stripAnchors doc).length + 1) none (stripAnchors doc)
    have hne := segCore_ne_nil ((stripAnchors doc).length) none (stripAnchors doc) hpc
    rw [if_neg (by simpa using hne)]
    exact hmain

/-- Counterexample to claim C7 as stated: this document contains no marker
match at all, yet anchor stripping splices one together, so segmentation
yields a lone annotation placeholder and no markdown segment. -/
theorem claim_C7_counterexample :
    findMarker ("<!<a id='x'></a>-- MD -->").toList = none ∧
    stripAnchors ("<!<a id='x'></a>-- MD -->").toList = ("<!-- MD -->").toList ∧
    segmentsOf ("<!<a id='x'></a>-- MD -->").toList = [Seg.ann none none] := by
  refine ⟨rfl, rfl, rfl⟩

/-- Claim C7 as amended: for every document whose anchor-stripped content
contains no marker match, segmentation produces exactly one markdown segment
holding that whole anchor-stripped content, and zero annotation placeholders
(hence no annotation forms). -/
theorem claim_C7_amended (doc : List Char)
    (h : findMarker (stripAnchors doc) = none) :
    segmentsOf doc = [Seg.md (stripAnchors doc)] ∧
    annCount (segmentsOf doc) = 0 := by
  have hseg : segmentsOf doc = [Seg.md (stripAnchors doc)] := by
    unfold segmentsOf
    by_cases hpc : stripAnchors doc = []
    · rw [hpc]
      simp
    · rw [if_neg hpc]
      have hcore : segCore ((stripAnchors doc).length + 1) none (stripAnchors doc)
          = [Seg.md (stripAnchors doc)] := by
        simp only [segCore, h]
        rw [if_neg hpc]
      rw [hcore]
      simp
  exact ⟨hseg, by rw [hseg]; rfl⟩

/-- Witness for the amended claim C7: a marker-free document. -/
theorem claim_C7_witness :
    segmentsOf ("# Title\nhello world").toList
      = [Seg.md (stripAnchors ("# Title\nhello world").toList)] ∧
    annCount (segmentsOf ("# Title\nhello world").toList) = 0 :=
  claim_C7_amended ("# Title\nhello world").toList rfl

/-! ## Claim C2: step roles -/

/-- Claim C2: an annotation placeholder's role is the metadata `role` string
(trimmed and lower-cased) whenever that string is non-blank; a blank or
missing metadata role falls back to the owning heading — lower-cased and
trimmed, cut at the first hyphen, trimmed again; a form renders exactly for
role `assistant`.  Concretely, segmenting a document whose marker follows
`# Assistant - Step 1` yields a placeholder with role `assistant` that
renders a form, while `# User - Step 1` yields role `user` and no form. -/
theorem claim_C2 :
    (∀ (h : Option (List Char)) (o : Jo) (s : String),
      jGet o "role" = some (.jstr s) → trimL s.toList ≠ [] →
      determineStepRole (.ann h (some (.jobj o))) = some (lowerL (trimL s.toList))) ∧
    (∀ (h : Option (List Char)) (o : Jo) (s : String),
      jGet o "role" = some (.jstr s) → trimL s.toList = [] →
      determineStepRole (.ann h (some (.jobj o))) = headingRoleOf h) ∧
    (∀ h : Option (List Char), determineStepRole (.ann h none) = headingRoleOf h) ∧
    (∀ hd : List Char,
      headingRoleOf (some hd) =
        (if lowerL (trimL hd) = [] then none
         else if trimL ((lowerL (trimL hd)).takeWhile fun c => c ≠ '-') = [] then none
         else some (lowerL (trimL ((lowerL (trimL hd)).takeWhile fun c => c ≠ '-'))))) ∧
    (∀ seg : Seg, rendersForm seg = true ↔
      determineStepRole seg = some ("assistant".toList)) ∧
    (segmentsOf ("# Assistant - Step 1\nbody\n<!-- MD -->").toList
      = [Seg.md ("# Assistant - Step 1\nbody\n").toList,
         Seg.ann (some ("Assistant - Step 1").toList) none]) ∧
    (determineStepRole (Seg.ann (some ("Assistant - Step 1").toList) none)
      = some ("assistant".toList)) ∧
    (rendersForm (Seg.ann (some ("Assistant - Step 1").toList) none) = true) ∧
    (segmentsOf ("# User - Step 1\n<!-- MD -->").toList
      = [Seg.md ("# User - Step 1\n").toList,
         Seg.ann (some ("User - Step 1").toList) none]) ∧
    (determineStepRole (Seg.ann (some ("User - Step 1").toList) none)
      = some ("user".toList)) ∧
    (rendersForm (Seg.ann (some ("User - Step 1").toList) none) = false) := by
  refine ⟨?_, ?_, ?_, ?_, ?_, rfl, rfl, rfl, rfl, rfl, rfl⟩
  · intro h o s hrole htrim
    have htrim' : trimL s.data ≠ [] := htrim
    simp [determineStepRole, hrole, htrim']
  · intro h o s hrole htrim
    have htrim' : trimL s.data = [] := htrim
    simp [determineStepRole, hrole, htrim']
  · intro h
    rfl
  · intro hd
    by_cases h1 : lowerL (trimL hd) = []
    · simp [headingRoleOf, h1]
    · by_cases h2 : trimL ((lowerL (trimL hd)).takeWhile fun c => c ≠ '-') = []
      · simp [headingRoleOf, h1, h2]
      · simp [headingRoleOf, h1, h2]
  · intro seg
    simp [rendersForm]

/-- Witness for claim C2's role rules: an explicit metadata role ` Assistant `
wins over a `User` heading, and a blank metadata role falls back to the
heading. -/
theorem claim_C2_witness :
    determineStepRole (.ann (some ("User - Step 1").toList)
        (some (.jobj (.ocons "role" (.jstr " Assistant ") .onil))))
      = some (lowerL (trimL (" Assistant ").toList)) ∧
    determineStepRole (.ann (some ("User - Step 1").toList)
        (some (.jobj (.ocons "role" (.jstr "  ") .onil))))
      = headingRoleOf (some ("User - Step 1").toList) :=
  ⟨claim_C2.1 (some ("User - Step 1").toList) (.ocons "role" (.jstr " Assistant ") .onil)
      " Assistant " rfl (by decide),
    claim_C2.2.1 (some ("User - Step 1").toList) (.ocons "role" (.jstr "  ") .onil)
      "  " rfl (by decide)⟩

/-! ## Claim C3: heading ids from the anchor map -/

theorem anchorIdPartAt_ne_nil {b : Bool} {l i r : List Char}
    (h : anchorIdPartAt b l = some (i, r)) : i ≠ [] := by
  intro hi
  subst hi
  unfold anchorIdPartAt at h
  repeat' split at h
  all_goals try exact Option.noConfusion h
  dsimp only at h
  repeat' split at h
  all_goals try exact Option.noConfusion h
  obtain ⟨r0, -, hpair⟩ := Option.map_eq_some'.mp h
  simp only [Prod.mk.injEq] at hpair
  exact absurd hpair.1 (by assumption)

theorem anchorTagAt_ne_nil {b : Bool} {l i r : List Char}
    (h : anchorTagAt b l = some (i, r)) : i ≠ [] := by
  unfold anchorTagAt at h
  repeat' split at h
  all_goals first
  | exact Option.noConfusion h
  | exact anchorIdPartAt_ne_nil h

theorem findAnchorIn_ne_nil : ∀ {l i : List Char}, findAnchorIn l = some i → i ≠ []
  | [], i, h => Option.noConfusion h
  | c :: t, i, h => by
    unfold findAnchorIn at h
    split at h
    · rename_i p hp
      obtain rfl : p.1 = i := by simpa using h
      exact anchorTagAt_ne_nil (by rw [hp])
    · exact findAnchorIn_ne_nil h

theorem amSet_values :
    ∀ (m : List (List Char × List Char)) (key a : List Char),
      (∀ p ∈ m, p.2 ≠ []) → a ≠ [] → ∀ p ∈ amSet m key a, p.2 ≠ []
  | [], _, a, _, ha, p, hp => by
    simp only [amSet, List.mem_singleton] at hp
    subst hp
    exact ha
  | (k1, v1) :: rest, key, a, hm, ha, p, hp => by
    simp only [amSet] at hp
    split at hp
    · rcases List.mem_cons.mp hp with h1 | h2
      · subst h1
        exact ha
      · exact hm p (List.mem_cons_of_mem _ h2)
    · rcases List.mem_cons.mp hp with h1 | h2
      · subst h1
        exact hm (k1, v1) (List.mem_cons_self _ _)
      · exact amSet_values rest key a (fun q hq => hm q (List.mem_cons_of_mem _ hq)) ha p h2

theorem amGet_values :
    ∀ (m : List (List Char × List Char)) (k v : List Char),
      (∀ p ∈ m, p.2 ≠ []) → amGet m k = some v → v ≠ []
  | [], _, _, _, h => Option.noConfusion h
  | (k1, v1) :: rest, k, v, hm, h => by
    simp only [amGet] at h
    split at h
    · obtain rfl : v1 = v := by simpa using h
      exact hm (k1, v1) (List.mem_cons_self _ _)
    · exact amGet_values rest k v (fun q hq => hm q (List.mem_cons_of_mem _ hq)) h

theorem extractAnchorAux_values :
    ∀ (lines : List (List Char)) (m : List (List Char × List Char)),
      (∀ p ∈ m, p.2 ≠ []) → ∀ p ∈ extractAnchorAux lines m, p.2 ≠ []
  | [], _, hm => hm
  | x :: xs, m, hm => by
    unfold extractAnchorAux
    split
    · rename_i aid hfound
      have haid : aid ≠ [] := findAnchorIn_ne_nil hfound
      refine extractAnchorAux_values xs _ ?_
      split
      · rename_i nl hnl
        split
        · by_cases hkey : generateIdL (headingTextOfLine nl) = []
          · simpa [hkey] using hm
          · simpa [hkey] using
              amSet_values m (generateIdL (headingTextOfLine nl)) aid hm haid
        · exact hm
      · exact hm
    · exact extractAnchorAux_values xs m hm

theorem extractAnchorIds_values (content : List Char) :
    ∀ p ∈ extractAnchorIds content, p.2 ≠ [] :=
  extractAnchorAux_values (splitLines content) []
    (fun p hp => absurd hp (List.not_mem_nil p))

/-- Claim C3: a rendered heading's id is the explicit anchor id whenever its
normalized slug is a key of the anchor map (regardless of any provided id),
and otherwise (with no provided id) the slug itself; the heading is marked
an anchor section exactly when the map lookup succeeded.  Concretely,
`<a id="m-2"></a>` on the line before `## Setup` gives the `Setup` heading
id `m-2`, not `setup`. -/
theorem claim_C3 :
    (∀ (content text : List Char) (dflt : Option (List Char)) (a : List Char),
      amGet (extractAnchorIds content) (generateIdL text) = some a →
      (getHeadingMetadata (extractAnchorIds content) text dflt).id = a ∧
      (getHeadingMetadata (extractAnchorIds content) text dflt).isAnchorSection = true) ∧
    (∀ content text : List Char,
      amGet (extractAnchorIds content) (generateIdL text) = none →
      (getHeadingMetadata (extractAnchorIds content) text none).id = generateIdL text ∧
      (getHeadingMetadata (extractAnchorIds content) text none).isAnchorSection = false) ∧
    (extractAnchorIds ("<a id=\"m-2\"></a>\n## Setup").toList
      = [(("setup").toList, ("m-2").toList)]) ∧
    ((getHeadingMetadata (extractAnchorIds ("<a id=\"m-2\"></a>\n## Setup").toList)
        ("Setup").toList none).id = ("m-2").toList) ∧
    ((getHeadingMetadata (extractAnchorIds ("<a id=\"m-2\"></a>\n## Setup").toList)
        ("Setup").toList none).isAnchorSection = true) := by
  refine ⟨?_, ?_, rfl, rfl, rfl⟩
  · intro content text dflt a hget
    have ha : a ≠ [] :=
      amGet_values (extractAnchorIds content) (generateIdL text) a
        (extractAnchorIds_values content) hget
    obtain ⟨c0, t0, rfl⟩ := List.exists_cons_of_ne_nil ha
    constructor
    · simp [getHeadingMetadata, hget, jsOrL]
    · simp [getHeadingMetadata, hget]
  · intro content text hget
    constructor
    · simp [getHeadingMetadata, hget, jsOrL]
    · simp [getHeadingMetadata, hget]

/-- Witness for claim C3's general rules at the concrete document. -/
theorem claim_C3_witness :
    (getHeadingMetadata (extractAnchorIds ("<a id=\"m-2\"></a>\n## Setup").toList)
        ("Setup").toList (some ("provided").toList)).id = ("m-2").toList ∧
    (getHeadingMetadata (extractAnchorIds ("<a id=\"m-2\"></a>\n## Setup").toList)
        ("Other").toList none).id = generateIdL ("Other").toList :=
  ⟨(claim_C3.1 ("<a id=\"m-2\"></a>\n## Setup").toList ("Setup").toList
      (some ("provided").toList) ("m-2").toList rfl).1,
    (claim_C3.2.1 ("<a id=\"m-2\"></a>\n## Setup").toList ("Other").toList rfl).1⟩

end TrajView
